import Mathlib

/-!
Random image server: routing and file-serving handlers.

A shallow embedding of `randomimage.go`.  Go strings are lists of characters
(well-formed text), a handler is a function from the request and the state of
the response writer to the new state of the writer and the filesystem calls it
made, and the filesystem is a pair of functions answering `os.ReadDir` and
`os.Open`, with the type bits of every directory entry.  Log output is not
modelled.

The functions of the Go standard library that decide the program's branches are
modelled after their Go sources (`filepath.Base`, `filepath.Ext`,
`filepath.Clean`, `filepath.Join`, `strings.TrimPrefix`, `strings.ToLower` on
ASCII, `http.Error`, `http.NotFound`, `http.Redirect`, and `http.ServeContent`
with its precondition checks); the tables and engines behind the others are
fields of `Host` (`unicode.ToLower` above U+007F, the HTML template engine, the
URL clean-up of `http.Redirect`, the comparison of entity tags and dates and the
serving of byte ranges in `http.ServeContent`), so every theorem holds for all
of them.
-/

namespace RandomImage

/-- A Go string, read as text. -/
abbrev Str := List Char

/-! ## Library functions used by the program -/

/-- Go `os.IsPathSeparator` on Unix. -/
def isPathSeparator (c : Char) : Bool := c == '/'

/-- Loop of Go `filepath.Ext`: walk from the last byte towards the first, stop at
a separator, return the suffix starting at the first dot met.  `rev` is the part
of the path not yet visited, reversed; `acc` is the suffix already visited. -/
def extLoop : List Char → List Char → Str
  | [], _ => []
  | c :: rev, acc =>
    if isPathSeparator c then []
    else if c = '.' then c :: acc
    else extLoop rev (c :: acc)

/-- Go `filepath.Ext`. -/
def Ext (path : Str) : Str := extLoop path.reverse []

/-- Go `filepath.Base` on Unix (no volume names). -/
def Base (path : Str) : Str :=
  if path = [] then ['.']
  else
    -- strip trailing slashes
    let stripped := (path.reverse.dropWhile isPathSeparator).reverse
    -- find the last element
    let last := (stripped.reverse.takeWhile (fun c => !isPathSeparator c)).reverse
    -- if empty now, it had only slashes
    if last = [] then ['/'] else last

/-- Go `strings.HasPrefix`. -/
def HasPrefix (s pre : Str) : Bool := pre.isPrefixOf s

/-- Go `strings.TrimPrefix`. -/
def TrimPrefix (s pre : Str) : Str :=
  if HasPrefix s pre then s.drop pre.length else s


/-! ### `filepath.Clean` and `filepath.Join` -/

/-- The backtracking step of the `..` case of Go `filepath.Clean`: after `out.w--`
the write index keeps going down while it is above `dotdot` and the byte at the
write index is not a separator.  The buffer is held reversed; the first argument
is the byte at the write index (the one dropped last). -/
def backtrack (dotdot : Nat) : Char → List Char → List Char
  | _, [] => []
  | c, c2 :: rev =>
    if (c2 :: rev).length > dotdot ∧ ¬ isPathSeparator c = true then backtrack dotdot c2 rev
    else c2 :: rev

/-- The main loop of Go `filepath.Clean`.  The second list is `path[r:]`, `out` is
`buf[0:out.w]`, and one unit of fuel is spent per iteration (each iteration
consumes at least one byte, so `path.length` units are enough). -/
def cleanLoop (rooted : Bool) : Nat → Str → Str → Nat → Str
  | 0, _, out, _ => out
  | _ + 1, [], out, _ => out
  | fuel + 1, c :: rest, out, dotdot =>
    if isPathSeparator c then
      -- empty path element
      cleanLoop rooted fuel rest out dotdot
    else if c = '.' ∧ (rest = [] ∨ rest.head?.any isPathSeparator = true) then
      -- . element
      cleanLoop rooted fuel rest out dotdot
    else if c = '.' ∧ rest.head? = some '.' ∧
        (rest.tail = [] ∨ rest.tail.head?.any isPathSeparator = true) then
      -- .. element: remove to last separator
      if out.length > dotdot then
        -- can backtrack
        match out.reverse with
        | [] => cleanLoop rooted fuel rest.tail out dotdot
        | last :: rev => cleanLoop rooted fuel rest.tail (backtrack dotdot last rev).reverse dotdot
      else if !rooted then
        -- cannot backtrack, but not rooted, so append .. element
        let out1 := if out.length > 0 then out ++ ['/'] else out
        let out2 := out1 ++ ['.', '.']
        cleanLoop rooted fuel rest.tail out2 out2.length
      else cleanLoop rooted fuel rest.tail out dotdot
    else
      -- real path element: add slash if needed, copy element
      let out1 :=
        if (rooted && out.length != 1) || (!rooted && out.length != 0) then out ++ ['/'] else out
      cleanLoop rooted fuel ((c :: rest).dropWhile (fun b => !isPathSeparator b))
        (out1 ++ (c :: rest).takeWhile (fun b => !isPathSeparator b)) dotdot

/-- The buffer of `filepath.Clean` after a real path element is copied to it: a
slash is added first unless the buffer is at its start. -/
def appendElement (rooted : Bool) (out name : Str) : Str :=
  (if (rooted && out.length != 1) || (!rooted && out.length != 0) then out ++ ['/'] else out) ++
    name

/-- Invariant of the loop of `filepath.Clean` on a path that is not rooted: the
buffer does not start with a separator or with a "." element, and up to
`dotdot` it is empty or starts with a ".." element. -/
def CleanInv (out : Str) (dotdot : Nat) : Prop :=
  out.head? ≠ some '/' ∧ out ≠ ['.'] ∧ out.take 2 ≠ ['.', '/'] ∧ dotdot ≤ out.length ∧
    (dotdot = 0 ∨ (2 ≤ dotdot ∧ out.take 2 = ['.', '.']))

/-- Go `filepath.Clean` on Unix. -/
def Clean (path : Str) : Str :=
  match path with
  | [] => ['.']
  | c :: rest =>
    let rooted := isPathSeparator c
    let out :=
      if rooted then cleanLoop true path.length rest ['/'] 1
      else cleanLoop false path.length path [] 0
    -- turn empty string into "."
    if out.length = 0 then ['.'] else out

/-- Go `filepath.Join` applied to two elements: leading empty elements are skipped,
the rest is joined with the separator and cleaned. -/
def Join (a b : Str) : Str :=
  if a ≠ [] then Clean (a ++ '/' :: b)
  else if b ≠ [] then Clean b
  else []

/-! ### The host -/

/-- One filesystem call made while a request is handled. -/
inductive FsCall where
  | readDir (dir : Str)
  | openFile (path : Str)
  deriving DecidableEq, Repr

/-- State of an `http.ResponseWriter`: the header map, the status line once it
is written, and the body written so far. -/
structure ResponseWriter where
  header : List (Str × Str)
  status : Option Nat
  body : Str
  deriving DecidableEq, Repr

/-- What one call of a handler leaves behind: the response writer, and the
filesystem calls the handler made, in order. -/
structure Outcome where
  resp : ResponseWriter
  fsCalls : List FsCall
  deriving DecidableEq, Repr

/-- The part of `*http.Request` the program reads. -/
structure Request where
  method : Str
  path : Str
  header : List (Str × Str)
  deriving DecidableEq, Repr

/-- A Go `http.HandlerFunc`. -/
abbrev Handler := Request → ResponseWriter → Outcome

/-- Struct to pass data to the index template. -/
structure IndexPageData where
  FileName : Str
  StaticPath : Str
  deriving DecidableEq, Repr

/-- Primitives of the Go standard library whose tables or engines are not part of
the program. -/
structure Host where
  /-- Go `unicode.ToLower` on runes above U+007F. -/
  unicodeLower : Char → Char
  /-- Text written by `indexTemplate.Execute` for the given page data. -/
  execIndexTemplate : List IndexPageData → Str
  /-- Text of a modification time in a Last-Modified header (`http.TimeFormat`). -/
  httpTime : Nat → Str
  /-- Content type `http.ServeContent` derives from the name and the first bytes
  when the handler set none; `none` when the file cannot be rewound after the
  first bytes are read. -/
  detectContentType : Str → Str → Option Str
  /-- Outcome of `checkIfMatch` for a non-empty If-Match header and the Etag
  response header. -/
  matchIfMatch : Str → Str → Bool
  /-- Whether the modification time is after the date of a non-empty
  If-Unmodified-Since or If-Modified-Since header; `none` when the date does not
  parse. -/
  modifiedAfter : Str → Nat → Option Bool
  /-- Outcome of the entity-tag scan of `checkIfNoneMatch` on a trimmed, non-empty
  If-None-Match value that does not start with an asterisk: whether a tag
  matches the Etag response header. -/
  scanIfNoneMatch : Str → Str → Bool
  /-- Outcome of `checkIfRange` for a non-empty If-Range header: whether the
  range still applies. -/
  ifRangeHolds : Str → Str → Nat → Bool
  /-- What `http.ServeContent` does with a Range header that starts with
  "bytes=" (range header, size, content). -/
  serveRanges : Request → Str → Nat → Str → ResponseWriter → ResponseWriter
  /-- Value `http.Redirect` writes to the Location header, from the request path
  and the URL it is given. -/
  redirectURL : Str → Str → Str
  /-- Short HTML body `http.Redirect` writes for a GET request. -/
  redirectBody : Str → Nat → Str

/-- Go `unicode.ToLower`: ASCII letters by arithmetic, the rest by table. -/
def toLowerRune (host : Host) (c : Char) : Char :=
  if c.toNat ≤ 0x7F then
    if 'A'.toNat ≤ c.toNat ∧ c.toNat ≤ 'Z'.toNat then Char.ofNat (c.toNat + ('a'.toNat - 'A'.toNat))
    else c
  else host.unicodeLower c

/-- Go `strings.ToLower` (rune by rune, on well-formed text). -/
def ToLower (host : Host) (s : Str) : Str := s.map (toLowerRune host)

/-- Error of `os.Open`, split by what `os.IsNotExist` says of it. -/
inductive OpenError where
  | notExist
  | other (msg : Str)
  deriving DecidableEq, Repr

/-- Result of `File.Stat`. -/
structure FileInfo where
  modTime : Nat
  deriving DecidableEq, Repr

/-- An open file: what `Stat` answers, the size `Seek` to its end finds (or the
error of `Seek`), and the bytes it holds. -/
structure File where
  stat : Except Str FileInfo
  size : Except Str Nat
  content : Str

/-- The type bits of a directory entry (Go `fs.FileMode.Type`). -/
inductive FileType where
  | regular
  | dir
  | symlink
  | namedPipe
  | socket
  | device
  | charDevice
  | irregular
  deriving DecidableEq, Repr

/-- A directory entry as returned by `os.ReadDir`: its name and type bits. -/
structure DirEntry where
  name : Str
  mode : FileType
  deriving DecidableEq, Repr

/-- Go `DirEntry.IsDir`: the entry describes a directory. -/
def DirEntry.IsDir (e : DirEntry) : Bool := e.mode == FileType.dir

/-- The filesystem as the program sees it. -/
structure FS where
  /-- Go `os.ReadDir`: the entries in directory order, or an error. -/
  osReadDir : Str → Except Str (List DirEntry)
  /-- Go `os.Open`. -/
  osOpen : Str → Except OpenError File
  /-- Whether a file exists at the path.  The program never asks; statements about
  existing and missing files do. -/
  fileExists : Str → Bool

/-- Go `w.Header().Set(key, value)`. -/
def headerSet (w : ResponseWriter) (key value : Str) : ResponseWriter :=
  { w with header := (key, value) :: w.header.filter (fun kv => kv.1 != key) }

/-- Go `w.Header().Get(key)`. -/
def headerGet (w : ResponseWriter) (key : Str) : Option Str := w.header.lookup key

/-- Go `w.WriteHeader(code)`: the status line is written once. -/
def writeHeader (w : ResponseWriter) (code : Nat) : ResponseWriter :=
  match w.status with
  | some _ => w
  | none => { w with status := some code }

/-- Go `w.Write(data)`: writes the status line 200 first if none was written. -/
def write (w : ResponseWriter) (data : Str) : ResponseWriter :=
  let w1 := writeHeader w 200
  { w1 with body := w1.body ++ data }

/-- Go `fmt.Fprintln(w, s)`. -/
def fprintln (w : ResponseWriter) (s : Str) : ResponseWriter := write w (s ++ ['\n'])

/-- Go `http.Error`. -/
def httpError (w : ResponseWriter) (error : Str) (code : Nat) : ResponseWriter :=
  let w1 := headerSet w "Content-Type".toList "text/plain; charset=utf-8".toList
  let w2 := headerSet w1 "X-Content-Type-Options".toList "nosniff".toList
  fprintln (writeHeader w2 code) error

/-- Go `http.NotFound`. -/
def httpNotFound (w : ResponseWriter) : ResponseWriter :=
  httpError w "404 page not found".toList 404

/-- Go `http.Redirect`. -/
def httpRedirect (host : Host) (w : ResponseWriter) (r : Request) (url : Str) (code : Nat) :
    ResponseWriter :=
  let hadCT := (headerGet w "Content-Type".toList).isSome
  let w1 := headerSet w "Location".toList (host.redirectURL r.path url)
  let w2 :=
    if !hadCT && (r.method == "GET".toList || r.method == "HEAD".toList) then
      headerSet w1 "Content-Type".toList "text/html; charset=utf-8".toList
    else w1
  let w3 := writeHeader w2 code
  if !hadCT && r.method == "GET".toList then fprintln w3 (host.redirectBody url code) else w3

/-! ### `http.ServeContent` -/

/-- Go `delete(w.Header(), key)`. -/
def headerDel (w : ResponseWriter) (key : Str) : ResponseWriter :=
  { w with header := w.header.filter (fun kv => kv.1 != key) }

/-- Go `r.Header.Get(key)`: the empty string when the header is absent. -/
def requestHeader (r : Request) (key : Str) : Str := (r.header.lookup key).getD []

/-- Result of a precondition check of `net/http`. -/
inductive CondResult where
  | condNone
  | condTrue
  | condFalse
  deriving DecidableEq, Repr

/-- Go `textproto.TrimString`: leading and trailing ASCII space is removed. -/
def trimString (s : Str) : Str :=
  let isSpace := fun c : Char => c == ' ' || c == '\t' || c == '\n' || c == '\r'
  ((s.dropWhile isSpace).reverse.dropWhile isSpace).reverse

/-- Go `checkIfMatch`. -/
def checkIfMatch (host : Host) (w : ResponseWriter) (r : Request) : CondResult :=
  let im := requestHeader r "If-Match".toList
  if im = [] then .condNone
  else if host.matchIfMatch im ((headerGet w "Etag".toList).getD []) then .condTrue
  else .condFalse

/-- Go `checkIfUnmodifiedSince`. -/
def checkIfUnmodifiedSince (host : Host) (r : Request) (modTime : Nat) : CondResult :=
  let ius := requestHeader r "If-Unmodified-Since".toList
  if ius = [] ∨ modTime = 0 then .condNone
  else
    match host.modifiedAfter ius modTime with
    | none => .condNone
    | some false => .condTrue
    | some true => .condFalse

/-- Go `checkIfNoneMatch`: an asterisk matches whatever the resource is. -/
def checkIfNoneMatch (host : Host) (w : ResponseWriter) (r : Request) : CondResult :=
  let inm := requestHeader r "If-None-Match".toList
  if inm = [] then .condNone
  else
    let buf := trimString inm
    if buf = [] then .condTrue
    else if buf.head? = some '*' then .condFalse
    else if host.scanIfNoneMatch buf ((headerGet w "Etag".toList).getD []) then .condFalse
    else .condTrue

/-- Go `checkIfModifiedSince`. -/
def checkIfModifiedSince (host : Host) (r : Request) (modTime : Nat) : CondResult :=
  if r.method ≠ "GET".toList ∧ r.method ≠ "HEAD".toList then .condNone
  else
    let ims := requestHeader r "If-Modified-Since".toList
    if ims = [] ∨ modTime = 0 then .condNone
    else
      match host.modifiedAfter ims modTime with
      | none => .condNone
      | some true => .condTrue
      | some false => .condFalse

/-- Go `checkIfRange`. -/
def checkIfRange (host : Host) (w : ResponseWriter) (r : Request) (modTime : Nat) :
    CondResult :=
  if r.method ≠ "GET".toList ∧ r.method ≠ "HEAD".toList then .condNone
  else
    let ir := requestHeader r "If-Range".toList
    if ir = [] then .condNone
    else if host.ifRangeHolds ir ((headerGet w "Etag".toList).getD []) modTime then .condTrue
    else .condFalse

/-- Go `setLastModified`: no header for the zero time. -/
def setLastModified (host : Host) (w : ResponseWriter) (modTime : Nat) : ResponseWriter :=
  if modTime ≠ 0 then headerSet w "Last-Modified".toList (host.httpTime modTime) else w

/-- Go `writeNotModified`. -/
def writeNotModified (w : ResponseWriter) : ResponseWriter :=
  let w := headerDel w "Content-Type".toList
  let w := headerDel w "Content-Length".toList
  let w := headerDel w "Content-Encoding".toList
  let w := if (headerGet w "Etag".toList).getD [] ≠ [] then headerDel w "Last-Modified".toList else w
  writeHeader w 304

/-- The end of Go `checkPreconditions`: the Range header that is still to be
honoured. -/
def rangeToServe (host : Host) (w : ResponseWriter) (r : Request) (modTime : Nat) : Str :=
  let rangeHeader := requestHeader r "Range".toList
  if rangeHeader ≠ [] ∧ checkIfRange host w r modTime = .condFalse then [] else rangeHeader

/-- Go `checkPreconditions`: the writer, whether the response is done, and the
Range header to honour. -/
def checkPreconditions (host : Host) (w : ResponseWriter) (r : Request) (modTime : Nat) :
    ResponseWriter × Bool × Str :=
  let ch := checkIfMatch host w r
  let ch := if ch = .condNone then checkIfUnmodifiedSince host r modTime else ch
  if ch = .condFalse then (writeHeader w 412, true, [])
  else
    match checkIfNoneMatch host w r with
    | .condFalse =>
      if r.method = "GET".toList ∨ r.method = "HEAD".toList then (writeNotModified w, true, [])
      else (writeHeader w 412, true, [])
    | .condNone =>
      if checkIfModifiedSince host r modTime = .condFalse then (writeNotModified w, true, [])
      else (w, false, rangeToServe host w r modTime)
    | .condTrue => (w, false, rangeToServe host w r modTime)

/-- Go `http.ServeContent` on an open file. -/
def serveContent (host : Host) (r : Request) (name : Str) (modTime : Nat) (content : File)
    (w : ResponseWriter) : ResponseWriter :=
  let w := setLastModified host w modTime
  match checkPreconditions host w r modTime with
  | (w, true, _) => w
  | (w, false, rangeReq) =>
    -- if Content-Type isn't set, find it from the name and the first bytes
    let typed :=
      if (headerGet w "Content-Type".toList).isNone then
        (host.detectContentType name content.content).map
          (fun ctype => headerSet w "Content-Type".toList ctype)
      else some w
    match typed, content.size with
    | none, _ => httpError w "seeker can't seek".toList 500
    | some w, .error _ => httpError w "seeker can't seek".toList 500
    | some w, .ok size =>
      if rangeReq = [] then
        let w := headerSet w "Accept-Ranges".toList "bytes".toList
        let w :=
          if (headerGet w "Content-Encoding".toList).getD [] = [] then
            headerSet w "Content-Length".toList (Nat.repr size).toList
          else w
        let w := writeHeader w 200
        if r.method ≠ "HEAD".toList then write w (content.content.take size) else w
      else if !HasPrefix rangeReq "bytes=".toList then
        httpError w "invalid range".toList 416
      else host.serveRanges r rangeReq size content.content w

/-! ## The program -/

/-- ImageSource represents a collection of images with its configuration. -/
structure ImageSource where
  Name : Str
  ID : Str
  Directory : Str
  StaticPrefix : Str
  RandomPath : Str
  WebPageName : Str
  WebPath : Str
  deriving DecidableEq, Repr

/-- The registry `imageSources`, keys and values in source order (Go ranges over
the map in an unspecified order). -/
def imageSources : List (Str × ImageSource) :=
  [ ("teto".toList,
      { Name := "Kasane Teto".toList
        ID := "teto".toList
        Directory := "/srv/http/downloaded_booru_images_api/kasane_teto".toList
        StaticPrefix := "/teto/static/".toList
        RandomPath := "/teto".toList
        WebPageName := "teto-web.html".toList
        WebPath := "/teto-web".toList }),
    ("nso".toList,
      { Name := "Needy Streamer Overload".toList
        ID := "nso".toList
        Directory := "/srv/http/downloaded_booru_images_api/needy_girl_overdose".toList
        StaticPrefix := "/nso/static/".toList
        RandomPath := "/nso".toList
        WebPageName := "nso-web.html".toList
        WebPath := "/nso-web".toList }),
    ("public_http".toList,
      { Name := "Public HTTP Root".toList
        ID := "public_http".toList
        Directory := "/srv/http/".toList
        StaticPrefix := "/public/".toList
        RandomPath := []
        WebPageName := []
        WebPath := [] }) ]

/-- The values of `imageSources`. -/
def imageSourceValues : List ImageSource := imageSources.map Prod.snd

/-- The map `imageExtensions`: file extensions to their MIME types. -/
def imageExtensions : List (Str × Str) :=
  [ (".jpg".toList, "image/jpeg".toList),
    (".jpeg".toList, "image/jpeg".toList),
    (".png".toList, "image/png".toList),
    (".gif".toList, "image/gif".toList) ]

/-- Scans the specified directory and returns the valid image filenames. -/
def listAvailableImages (host : Host) (fs : FS) (imageDir : Str) : Except Str (List Str) :=
  match fs.osReadDir imageDir with
  | .error err => .error ("reading directory ".toList ++ imageDir ++ ": ".toList ++ err)
  | .ok entries =>
    .ok (entries.foldl (fun images entry =>
      if !entry.IsDir then
        let ext := ToLower host (Ext entry.name)
        match imageExtensions.lookup ext with
        | some _ => images ++ [entry.name]
        | none => images
      else images) [])

/-- Handler for random image redirects of one image source.  `intn` is
`rand.Intn` at the time of the request; an index outside the slice would make
the Go code fail, which `rand.Intn` excludes. -/
def createRandomImageRedirectHandler (host : Host) (fs : FS) (intn : Nat → Nat)
    (source : ImageSource) : Handler := fun r w =>
  match listAvailableImages host fs source.Directory with
  | .error _ =>
    ⟨httpError w "Internal Server Error: Could not list images.".toList 500,
      [.readDir source.Directory]⟩
  | .ok images =>
    if images.length = 0 then
      ⟨httpError w "No images found.".toList 404, [.readDir source.Directory]⟩
    else
      let randomIndex := intn images.length
      match images.get? randomIndex with
      | none => ⟨w, [.readDir source.Directory]⟩
      | some randomImageName =>
        -- construct the redirect URL, perform a temporary redirect (302)
        let redirectURL := source.StaticPrefix ++ randomImageName
        ⟨httpRedirect host w r redirectURL 302, [.readDir source.Directory]⟩

/-- Handler serving an HTML page that lists all available images of one image
source.  Template execution fails only when the connection does, which is not
modelled. -/
def createStaticIndexHandler (host : Host) (fs : FS) (source : ImageSource) : Handler :=
  fun _ w =>
  match listAvailableImages host fs source.Directory with
  | .error _ =>
    ⟨httpError w "Internal Server Error: Could not list images.".toList 500,
      [.readDir source.Directory]⟩
  | .ok images =>
    if images.length = 0 then
      ⟨fprintln (headerSet w "Content-Type".toList "text/html; charset=utf-8".toList)
        "<h1>No images available</h1>".toList, [.readDir source.Directory]⟩
    else
      let pageData := images.foldl (fun pageData imgName =>
        pageData ++ [{ FileName := imgName, StaticPath := source.StaticPrefix }]) []
      ⟨write (headerSet w "Content-Type".toList "text/html; charset=utf-8".toList)
        (host.execIndexTemplate pageData), [.readDir source.Directory]⟩

/-- Handler serving static files of one image source. -/
def createStaticFileHandler (host : Host) (fs : FS) (source : ImageSource) : Handler :=
  fun r w =>
  -- if the request path is exactly the static prefix, serve the index
  if r.path = source.StaticPrefix then createStaticIndexHandler host fs source r w
  else
    -- otherwise, try to serve a static file
    let imageName := TrimPrefix r.path source.StaticPrefix
    if imageName = [] then ⟨httpNotFound w, []⟩
    -- basic path traversal prevention
    else if Base imageName ≠ imageName then
      ⟨httpError w "Bad Request: Invalid image name.".toList 400, []⟩
    else
      let imagePath := Join source.Directory imageName
      let ext := ToLower host (Ext imageName)
      match imageExtensions.lookup ext with
      | none => ⟨httpNotFound w, []⟩
      | some contentType =>
        match fs.osOpen imagePath with
        | .error .notExist => ⟨httpNotFound w, [.openFile imagePath]⟩
        | .error (.other _) =>
          ⟨httpError w "Internal Server Error: Could not open image file.".toList 500,
            [.openFile imagePath]⟩
        | .ok img =>
          match img.stat with
          | .error _ =>
            ⟨httpError w "Internal Server Error: Could not get image file info.".toList 500,
              [.openFile imagePath]⟩
          | .ok fileInfo =>
            ⟨serveContent host r imageName fileInfo.modTime img
              (headerSet w "Content-Type".toList contentType), [.openFile imagePath]⟩

/-- Adds CORS headers to the response. -/
def corsMiddleware (next : Handler) : Handler := fun r w =>
  let w := headerSet w "Access-Control-Allow-Origin".toList "*".toList
  let w := headerSet w "Access-Control-Allow-Methods".toList "GET, POST, OPTIONS".toList
  let w := headerSet w "Access-Control-Allow-Headers".toList "Content-Type, Authorization".toList
  -- handle preflight requests (OPTIONS method)
  if r.method = "OPTIONS".toList then ⟨writeHeader w 200, []⟩
  -- call the next handler in the chain
  else next r w

/-- What a pattern of the mux is bound to. -/
inductive Route where
  | random (source : ImageSource)
  | static (source : ImageSource)
  | web (source : ImageSource)
  | root
  deriving DecidableEq, Repr

/-- The registrations `main` makes on the mux, in order, when the range over
`imageSources` visits the sources in the order given. -/
def registerRoutes (order : List ImageSource) : List (Str × Route) :=
  let mux := order.foldl (fun mux source =>
    let mux :=
      if source.RandomPath ≠ [] then mux ++ [(source.RandomPath, Route.random source)] else mux
    let mux :=
      if source.StaticPrefix ≠ [] then mux ++ [(source.StaticPrefix, Route.static source)] else mux
    if source.WebPath ≠ [] then mux ++ [(source.WebPath, Route.web source)] else mux) []
  mux ++ [("/".toList, Route.root)]

/-- The handler `main` registers at "/": a page that lists all collections, the
range over `imageSources` visiting the sources in the order given. -/
def rootHandler (order : List ImageSource) : Handler := fun r w =>
  if r.path ≠ "/".toList then ⟨httpNotFound w, []⟩
  else
    let w := headerSet w "Content-Type".toList "text/html; charset=utf-8".toList
    let w := fprintln w "<html><head><title>Image Collections</title></head><body>".toList
    let w := fprintln w "<h1>Available Image Collections</h1>".toList
    let w := fprintln w "<ul>".toList
    let w := order.foldl (fun w source =>
      let w := write w ("<li><strong>".toList ++ source.Name ++ "</strong><ul>".toList)
      let w :=
        if source.RandomPath ≠ [] then
          write w ("<li><a href=\"".toList ++ source.RandomPath ++
            "\">Random Image</a></li>".toList)
        else w
      let w :=
        if source.StaticPrefix ≠ [] then
          write w ("<li><a href=\"".toList ++ source.StaticPrefix ++
            "\">Image Index</a></li>".toList)
        else w
      let w :=
        if source.WebPath ≠ [] then
          write w ("<li><a href=\"".toList ++ source.WebPath ++
            "\">Web Viewer</a></li>".toList)
        else w
      fprintln w "</ul></li>".toList) w
    ⟨fprintln w "</ul></body></html>".toList, []⟩

/-! ## Specification-side definitions -/

/-- The supported extensions, as the specification lists them. -/
def supportedExtensions : List Str :=
  [".jpg".toList, ".jpeg".toList, ".png".toList, ".gif".toList]

/-- Lowercasing as the specification means it: an ASCII capital becomes the
small letter (`Char.toLower`), any other ASCII character stays, and a rune above
U+007F follows the case table of the host. -/
def lowercased (host : Host) (s : Str) : Str :=
  s.map (fun c => if c.toNat < 128 then c.toLower else host.unicodeLower c)

/-- An entry is to be listed when it is not a directory and its lowercased
extension is a supported one. -/
def isListed (host : Host) (e : DirEntry) : Bool :=
  e.mode != FileType.dir && decide (lowercased host (Ext e.name) ∈ supportedExtensions)

/-- An entry that is a regular file with a supported lowercased extension. -/
def isRegularImage (host : Host) (e : DirEntry) : Bool :=
  e.mode == FileType.regular && decide (lowercased host (Ext e.name) ∈ supportedExtensions)

/-- A request that carries no conditional header and no Range header. -/
def IsPlain (r : Request) : Prop :=
  requestHeader r "If-Match".toList = [] ∧
  requestHeader r "If-Unmodified-Since".toList = [] ∧
  requestHeader r "If-None-Match".toList = [] ∧
  requestHeader r "If-Modified-Since".toList = [] ∧
  requestHeader r "Range".toList = []

instance (r : Request) : Decidable (IsPlain r) := by
  unfold IsPlain
  infer_instance

/-- The page data the index is specified to show: one entry per image, in order,
each with the static prefix of the collection. -/
def indexPageData (source : ImageSource) (images : List Str) : List IndexPageData :=
  images.map (fun name => { FileName := name, StaticPath := source.StaticPrefix })

/-- The three response headers the CORS middleware is specified to set. -/
def corsHeaders : List (Str × Str) :=
  [ ("Access-Control-Allow-Origin".toList, "*".toList),
    ("Access-Control-Allow-Methods".toList, "GET, POST, OPTIONS".toList),
    ("Access-Control-Allow-Headers".toList, "Content-Type, Authorization".toList) ]

/-- The route paths a collection configures (the non-empty ones). -/
def routePaths (source : ImageSource) : List Str :=
  [source.RandomPath, source.StaticPrefix, source.WebPath].filter (fun p => p != [])

/-- Where `filepath.Join` is specified to put a component below a cleaned
directory: directly under it. -/
def childPath (dir name : Str) : Str :=
  if dir = ['.'] then name
  else if dir = ['/'] then '/' :: name
  else dir ++ '/' :: name

/-- A single path component: not empty, no separator, neither "." nor "..". -/
def IsComponent (name : Str) : Prop :=
  name ≠ [] ∧ '/' ∉ name ∧ name ≠ ['.'] ∧ name ≠ ['.', '.']

instance (name : Str) : Decidable (IsComponent name) := by
  unfold IsComponent
  infer_instance

/-- The links the root page is specified to show for a collection: one per
configured (non-empty) path, in the order random, index, viewer. -/
def configuredLinks (source : ImageSource) : List (Str × Str) :=
  ([ (source.RandomPath, "Random Image".toList),
     (source.StaticPrefix, "Image Index".toList),
     (source.WebPath, "Web Viewer".toList) ] : List (Str × Str)).filter
    (fun l => l.1 != [])

/-- HTML of one link of the root page. -/
def linkHtml (l : Str × Str) : Str :=
  "<li><a href=\"".toList ++ l.1 ++ "\">".toList ++ l.2 ++ "</a></li>".toList

/-- HTML of the item of one collection on the root page. -/
def itemHtml (source : ImageSource) : Str :=
  "<li><strong>".toList ++ source.Name ++ "</strong><ul>".toList ++
    ((configuredLinks source).map linkHtml).flatten ++ "</ul></li>\n".toList

/-- HTML of the whole root page for a sequence of collections. -/
def rootPageHtml (order : List ImageSource) : Str :=
  ("<html><head><title>Image Collections</title></head><body>\n" ++
    "<h1>Available Image Collections</h1>\n<ul>\n").toList ++
    (order.map itemHtml).flatten ++ "</ul></body></html>\n".toList

/-! ## Concrete hosts, filesystems and requests used to exercise the theorems -/

/-- A response writer on which nothing was set or written. -/
def freshWriter : ResponseWriter := { header := [], status := none, body := [] }

/-- A host with the simplest primitives: no non-ASCII case mapping, the
redirect URL written as given, no entity tag or date ever matching. -/
def plainHost : Host where
  unicodeLower := fun c => c
  execIndexTemplate := fun pageData =>
    (pageData.map (fun d => d.StaticPath ++ d.FileName ++ ['\n'])).flatten
  httpTime := fun _ => "Tue, 14 Nov 2023 22:13:20 GMT".toList
  detectContentType := fun _ _ => some "application/octet-stream".toList
  matchIfMatch := fun _ _ => false
  modifiedAfter := fun _ _ => none
  scanIfNoneMatch := fun _ _ => false
  ifRangeHolds := fun _ _ _ => true
  serveRanges := fun _ _ _ _ w => writeHeader w 206
  redirectURL := fun _ url => url
  redirectBody := fun url _ => url

/-- The collection "teto" of the registry. -/
def teto : ImageSource :=
  { Name := "Kasane Teto".toList
    ID := "teto".toList
    Directory := "/srv/http/downloaded_booru_images_api/kasane_teto".toList
    StaticPrefix := "/teto/static/".toList
    RandomPath := "/teto".toList
    WebPageName := "teto-web.html".toList
    WebPath := "/teto-web".toList }

/-- A filesystem whose directory of "teto" holds the regular files a.png, b.jpg
and readme.txt. -/
def sampleFS : FS where
  osReadDir := fun dir =>
    if dir = teto.Directory then
      .ok [⟨"a.png".toList, .regular⟩, ⟨"b.jpg".toList, .regular⟩,
        ⟨"readme.txt".toList, .regular⟩]
    else .error "no such file or directory".toList
  osOpen := fun path =>
    if path = teto.Directory ++ "/a.png".toList then
      .ok ⟨.ok ⟨1700000000⟩, .ok 3, "PNG".toList⟩
    else if path = teto.Directory ++ "/b.jpg".toList then
      .ok ⟨.ok ⟨1700000000⟩, .ok 3, "JPG".toList⟩
    else if path = teto.Directory ++ "/readme.txt".toList then
      .ok ⟨.ok ⟨1700000000⟩, .ok 4, "text".toList⟩
    else .error .notExist
  fileExists := fun path =>
    decide (path ∈ [teto.Directory ++ "/a.png".toList, teto.Directory ++ "/b.jpg".toList,
      teto.Directory ++ "/readme.txt".toList])

/-- A collection over a directory that holds more than regular image files. -/
def mixed : ImageSource :=
  { Name := "Mixed".toList
    ID := "mixed".toList
    Directory := "/srv/mixed".toList
    StaticPrefix := "/mixed/static/".toList
    RandomPath := "/mixed".toList
    WebPageName := []
    WebPath := [] }

/-- The entries of the directory of "mixed", in the order of `os.ReadDir` (by
name): a regular image with a capital extension, a subdirectory, a symbolic
link, an unreadable image, a text file, a named pipe, and an image on a stale
mount. -/
def mixedEntries : List DirEntry :=
  [ ⟨"A.PNG".toList, .regular⟩, ⟨"album.jpg".toList, .dir⟩, ⟨"link.gif".toList, .symlink⟩,
    ⟨"locked.png".toList, .regular⟩, ⟨"notes.txt".toList, .regular⟩,
    ⟨"pipe.jpeg".toList, .namedPipe⟩, ⟨"stale.png".toList, .regular⟩ ]

/-- A filesystem with the directory of "mixed".  A name of more than 255 bytes
cannot be opened (ENAMETOOLONG), locked.png is not readable (EACCES), the
named pipe cannot seek, and the info of stale.png cannot be read. -/
def mixedFS : FS where
  osReadDir := fun dir =>
    if dir = mixed.Directory then .ok mixedEntries
    else .error "no such file or directory".toList
  osOpen := fun path =>
    if (Base path).length > 255 then .error (.other "file name too long".toList)
    else if path = mixed.Directory ++ "/A.PNG".toList then
      .ok ⟨.ok ⟨1700000000⟩, .ok 3, "PNG".toList⟩
    else if path = mixed.Directory ++ "/album.jpg".toList then
      .ok ⟨.ok ⟨1700000000⟩, .ok 0, []⟩
    else if path = mixed.Directory ++ "/link.gif".toList then
      .ok ⟨.ok ⟨1700000000⟩, .ok 3, "GIF".toList⟩
    else if path = mixed.Directory ++ "/locked.png".toList then
      .error (.other "permission denied".toList)
    else if path = mixed.Directory ++ "/notes.txt".toList then
      .ok ⟨.ok ⟨1700000000⟩, .ok 5, "notes".toList⟩
    else if path = mixed.Directory ++ "/pipe.jpeg".toList then
      .ok ⟨.ok ⟨1700000000⟩, .error "illegal seek".toList, []⟩
    else if path = mixed.Directory ++ "/stale.png".toList then
      .ok ⟨.error "stale file handle".toList, .ok 0, []⟩
    else .error .notExist
  fileExists := fun path =>
    decide (path ∈ mixedEntries.map (fun e => mixed.Directory ++ '/' :: e.name))

/-- A name of 304 bytes with a supported extension. -/
def longName : Str := List.replicate 300 'x' ++ ".png".toList

/-- A GET request for a path, without headers. -/
def getRequest (path : Str) : Request := { method := "GET".toList, path := path, header := [] }

/-- A request that tries to leave the collection directory. -/
def traversalRequest : Request := getRequest "/teto/static/../../etc/passwd".toList

/-- A request for the image a.png of "teto". -/
def imageRequest : Request := getRequest "/teto/static/a.png".toList

/-- A request for the text file readme.txt in the directory of "teto". -/
def textRequest : Request := getRequest "/teto/static/readme.txt".toList

/-- A request for an image that is not in the directory of "teto". -/
def missingRequest : Request := getRequest "/teto/static/zzz.png".toList

/-- A request for the index of "teto". -/
def indexRequest : Request := getRequest "/teto/static/".toList

/-- A request for a random image of "teto". -/
def randomRequest : Request := getRequest "/teto".toList

/-- A preflight request. -/
def optionsRequest : Request := { method := "OPTIONS".toList, path := "/teto".toList, header := [] }

/-- A request for the text file notes.txt in the directory of "mixed". -/
def notesRequest : Request := getRequest "/mixed/static/notes.txt".toList

/-- A request for the unreadable image of "mixed". -/
def lockedRequest : Request := getRequest "/mixed/static/locked.png".toList

/-- A request for a file of "mixed" whose name is too long to exist. -/
def longNameRequest : Request := getRequest ("/mixed/static/".toList ++ longName)

/-- A request for the image A.PNG of "mixed". -/
def upperRequest : Request := getRequest "/mixed/static/A.PNG".toList

/-- A request for A.PNG that asks for it only if the client holds no copy. -/
def conditionalRequest : Request :=
  { method := "GET".toList, path := "/mixed/static/A.PNG".toList,
    header := [("If-None-Match".toList, "*".toList)] }

/-- A request for A.PNG with a Range header in a unit other than bytes. -/
def rangeRequest : Request :=
  { method := "GET".toList, path := "/mixed/static/A.PNG".toList,
    header := [("Range".toList, "items=0-1".toList)] }

/-- A request for the named pipe of "mixed". -/
def pipeRequest : Request := getRequest "/mixed/static/pipe.jpeg".toList

/-- A request for the image of "mixed" whose info cannot be read. -/
def staleRequest : Request := getRequest "/mixed/static/stale.png".toList

/-- A handler that writes one byte, to count invocations. -/
def tickHandler : Handler := fun _ w => ⟨write w ['x'], []⟩

/-! ## Lemmas on the library functions -/

theorem TrimPrefix_append (pre rem : Str) : TrimPrefix (pre ++ rem) pre = rem := by
  simp [TrimPrefix, HasPrefix]

theorem Base_of_noSep (name : Str) (hne : name ≠ []) (hsep : '/' ∉ name) : Base name = name := by
  have hall : ∀ c ∈ name.reverse, isPathSeparator c = false := by
    intro c hc
    have hc2 : c ∈ name := List.mem_reverse.mp hc
    have : c ≠ '/' := fun h => hsep (h ▸ hc2)
    simp [isPathSeparator, this]
  have hdrop : name.reverse.dropWhile isPathSeparator = name.reverse := by
    cases hrev : name.reverse with
    | nil => rfl
    | cons c t =>
      have : isPathSeparator c = false := hall c (by simp [hrev])
      simp [List.dropWhile, this]
  have htake : name.reverse.takeWhile (fun c => !isPathSeparator c) = name.reverse := by
    rw [List.takeWhile_eq_self_iff]
    intro c hc
    simp [hall c hc]
  simp [Base, hne, hdrop, htake]

theorem Base_noSep (name : Str) (hb : Base name = name) (hne : name ≠ []) :
    '/' ∉ name ∨ name = ['/'] := by
  unfold Base at hb
  simp only [hne, if_false] at hb
  split at hb
  · right; exact hb.symm
  · left
    rw [← hb]
    intro hmem
    have h2 := List.mem_reverse.mp hmem
    have h3 := List.mem_takeWhile_imp h2
    simp [isPathSeparator] at h3

theorem extLoop_length (rev acc : List Char) :
    (extLoop rev acc).length ≤ rev.length + acc.length := by
  induction rev generalizing acc with
  | nil => simp [extLoop]
  | cons c t ih =>
    unfold extLoop
    split
    · simp
    · split
      · simp; omega
      · have := ih (c :: acc)
        simp at this ⊢
        omega

theorem Ext_length (path : Str) : (Ext path).length ≤ path.length := by
  have := extLoop_length path.reverse []
  simpa [Ext] using this

theorem ToLower_length (host : Host) (s : Str) : (ToLower host s).length = s.length := by
  simp [ToLower]

theorem toLowerRune_eq (host : Host) (c : Char) :
    toLowerRune host c = if c.toNat < 128 then c.toLower else host.unicodeLower c := by
  have hA : 'A'.toNat = 65 := by decide
  have hZ : 'Z'.toNat = 90 := by decide
  have ha : 'a'.toNat = 97 := by decide
  unfold toLowerRune Char.toLower
  rw [hA, hZ, ha]
  by_cases h : c.toNat ≤ 0x7F
  · have h2 : c.toNat < 128 := by omega
    simp only [h, h2, if_true, ge_iff_le]
  · have h2 : ¬ c.toNat < 128 := by omega
    simp only [h, h2, if_false]

theorem ToLower_eq_lowercased (host : Host) (s : Str) : ToLower host s = lowercased host s := by
  unfold ToLower lowercased
  apply List.map_congr_left
  intro c _
  exact toLowerRune_eq host c

theorem lookup_imageExtensions (e ct : Str) :
    imageExtensions.lookup e = some ct ↔
      (e = ".jpg".toList ∧ ct = "image/jpeg".toList) ∨
      (e = ".jpeg".toList ∧ ct = "image/jpeg".toList) ∨
      (e = ".png".toList ∧ ct = "image/png".toList) ∨
      (e = ".gif".toList ∧ ct = "image/gif".toList) := by
  by_cases h1 : e = ".jpg".toList
  · subst h1; simp [imageExtensions, List.lookup]; tauto
  by_cases h2 : e = ".jpeg".toList
  · subst h2; simp [imageExtensions, List.lookup]; tauto
  by_cases h3 : e = ".png".toList
  · subst h3; simp [imageExtensions, List.lookup]; tauto
  by_cases h4 : e = ".gif".toList
  · subst h4; simp [imageExtensions, List.lookup]; tauto
  have b1 : (e == ".jpg".toList) = false := by simpa using h1
  have b2 : (e == ".jpeg".toList) = false := by simpa using h2
  have b3 : (e == ".png".toList) = false := by simpa using h3
  have b4 : (e == ".gif".toList) = false := by simpa using h4
  simp only [imageExtensions, List.lookup, b1, b2, b3, b4]
  constructor
  · intro h; exact absurd h (by simp)
  · rintro (⟨h, -⟩ | ⟨h, -⟩ | ⟨h, -⟩ | ⟨h, -⟩)
    · exact absurd h h1
    · exact absurd h h2
    · exact absurd h h3
    · exact absurd h h4

theorem lookup_isSome_iff (e : Str) :
    (imageExtensions.lookup e).isSome = true ↔ e ∈ supportedExtensions := by
  rw [Option.isSome_iff_exists]
  simp only [lookup_imageExtensions, supportedExtensions, List.mem_cons, List.mem_singleton,
    List.not_mem_nil, or_false]
  constructor
  · rintro ⟨ct, h | h | h | h⟩
    · exact Or.inl h.1
    · exact Or.inr (Or.inl h.1)
    · exact Or.inr (Or.inr (Or.inl h.1))
    · exact Or.inr (Or.inr (Or.inr h.1))
  · rintro (h | h | h | h)
    · exact ⟨_, Or.inl ⟨h, rfl⟩⟩
    · exact ⟨_, Or.inr (Or.inl ⟨h, rfl⟩)⟩
    · exact ⟨_, Or.inr (Or.inr (Or.inl ⟨h, rfl⟩))⟩
    · exact ⟨_, Or.inr (Or.inr (Or.inr ⟨h, rfl⟩))⟩

theorem lookup_length (e ct : Str) (h : imageExtensions.lookup e = some ct) : 4 ≤ e.length := by
  rcases (lookup_imageExtensions e ct).mp h with h | h | h | h <;> rw [h.1] <;> decide

theorem supported_length (host : Host) (name ct : Str)
    (h : imageExtensions.lookup (ToLower host (Ext name)) = some ct) : 4 ≤ name.length := by
  have h1 := lookup_length _ _ h
  rw [ToLower_length] at h1
  exact le_trans h1 (Ext_length name)

theorem component_of_checks (host : Host) (name ct : Str) (hb : Base name = name)
    (h : imageExtensions.lookup (ToLower host (Ext name)) = some ct) : IsComponent name := by
  have hlen := supported_length host name ct h
  have hne : name ≠ [] := by
    intro h0; rw [h0] at hlen; simp at hlen
  refine ⟨hne, ?_, ?_, ?_⟩
  · rcases Base_noSep name hb hne with h1 | h1
    · exact h1
    · rw [h1] at hlen; simp at hlen
  · intro h0; rw [h0] at hlen; simp at hlen
  · intro h0; rw [h0] at hlen; simp at hlen

theorem Base_of_component (name : Str) (h : IsComponent name) : Base name = name :=
  Base_of_noSep name h.1 h.2.1

/-! ## Lemmas on `filepath.Clean` and `filepath.Join` -/

theorem takeWhile_append_stop (p : Char → Bool) (l m : List Char) (x : Char) (hx : p x = false) :
    (l ++ x :: m).takeWhile p = l.takeWhile p := by
  induction l with
  | nil => simp [List.takeWhile, hx]
  | cons a t ih =>
    simp only [List.cons_append, List.takeWhile]
    cases p a <;> simp [ih]

theorem dropWhile_append_stop (p : Char → Bool) (l m : List Char) (x : Char) (hx : p x = false) :
    (l ++ x :: m).dropWhile p = l.dropWhile p ++ x :: m := by
  induction l with
  | nil => simp [List.dropWhile, hx]
  | cons a t ih =>
    simp only [List.cons_append, List.dropWhile]
    cases p a <;> simp [ih]

theorem dropWhile_length_le (p : Char → Bool) (l : List Char) :
    (l.dropWhile p).length ≤ l.length := by
  induction l with
  | nil => simp
  | cons a t ih =>
    simp only [List.dropWhile]
    cases p a
    · simp
    · simp only [List.length_cons]; omega

theorem cleanLoop_nil (rooted : Bool) (fuel : Nat) (out : Str) (dd : Nat) :
    cleanLoop rooted fuel [] out dd = out := by
  cases fuel <;> rfl

theorem cleanLoop_component (rooted : Bool) (fuel : Nat) (out : Str) (dd : Nat) (name : Str)
    (h : IsComponent name) (hf : 1 ≤ fuel) :
    cleanLoop rooted fuel name out dd = appendElement rooted out name := by
  obtain ⟨hne, hsep, hdot, hdotdot⟩ := h
  obtain ⟨g, rfl⟩ : ∃ g, fuel = g + 1 := ⟨fuel - 1, by omega⟩
  cases name with
  | nil => exact absurd rfl hne
  | cons c rest =>
    have hall : ∀ b ∈ c :: rest, isPathSeparator b = false := by
      intro b hb
      have : b ≠ '/' := fun hh => hsep (hh ▸ hb)
      simp [isPathSeparator, this]
    have hc : isPathSeparator c = false := hall c (by simp)
    have hhead : rest.head?.any isPathSeparator = false := by
      cases rest with
      | nil => rfl
      | cons a t => simpa using hall a (by simp)
    have hhead2 : rest.tail.head?.any isPathSeparator = false := by
      cases rest with
      | nil => rfl
      | cons a t =>
        cases t with
        | nil => rfl
        | cons a2 t2 => simpa using hall a2 (by simp)
    have hc1 : ¬ (c = '.' ∧ (rest = [] ∨ rest.head?.any isPathSeparator = true)) := by
      rintro ⟨h1, h2 | h2⟩
      · exact hdot (by rw [h1, h2])
      · rw [hhead] at h2; exact absurd h2 (by simp)
    have hc2 : ¬ (c = '.' ∧ rest.head? = some '.' ∧
        (rest.tail = [] ∨ rest.tail.head?.any isPathSeparator = true)) := by
      rintro ⟨h1, h2, h3 | h3⟩
      · cases rest with
        | nil => simp at h2
        | cons a t =>
          simp at h2 h3
          exact hdotdot (by rw [h1, h2, h3])
      · rw [hhead2] at h3; exact absurd h3 (by simp)
    have htake : (c :: rest).takeWhile (fun b => !isPathSeparator b) = c :: rest := by
      rw [List.takeWhile_eq_self_iff]
      intro b hb
      simp [hall b hb]
    have hdrop : (c :: rest).dropWhile (fun b => !isPathSeparator b) = [] := by
      rw [List.dropWhile_eq_nil_iff]
      intro b hb
      simp [hall b hb]
    unfold cleanLoop
    simp only [hc, Bool.false_eq_true, if_false, hc1, hc2, htake, hdrop, cleanLoop_nil]
    rfl

theorem cleanLoop_cons (rooted : Bool) (fuel : Nat) (c : Char) (rest out : Str) (dotdot : Nat) :
    cleanLoop rooted (fuel + 1) (c :: rest) out dotdot =
      if isPathSeparator c then cleanLoop rooted fuel rest out dotdot
      else if c = '.' ∧ (rest = [] ∨ rest.head?.any isPathSeparator = true) then
        cleanLoop rooted fuel rest out dotdot
      else if c = '.' ∧ rest.head? = some '.' ∧
          (rest.tail = [] ∨ rest.tail.head?.any isPathSeparator = true) then
        if out.length > dotdot then
          match out.reverse with
          | [] => cleanLoop rooted fuel rest.tail out dotdot
          | last :: rev =>
            cleanLoop rooted fuel rest.tail (backtrack dotdot last rev).reverse dotdot
        else if !rooted then
          cleanLoop rooted fuel rest.tail
            ((if out.length > 0 then out ++ ['/'] else out) ++ ['.', '.'])
            ((if out.length > 0 then out ++ ['/'] else out) ++ ['.', '.']).length
        else cleanLoop rooted fuel rest.tail out dotdot
      else
        cleanLoop rooted fuel ((c :: rest).dropWhile (fun b => !isPathSeparator b))
          ((if (rooted && out.length != 1) || (!rooted && out.length != 0) then out ++ ['/']
            else out) ++ (c :: rest).takeWhile (fun b => !isPathSeparator b)) dotdot := by
  rw [cleanLoop]

theorem cleanLoop_slash_component (rooted : Bool) (fuel : Nat) (out : Str) (dd : Nat)
    (name : Str) (h : IsComponent name) (hf : 2 ≤ fuel) :
    cleanLoop rooted fuel ('/' :: name) out dd = appendElement rooted out name := by
  obtain ⟨g, rfl⟩ : ∃ g, fuel = g + 1 := ⟨fuel - 1, by omega⟩
  rw [cleanLoop_cons, if_pos (by decide)]
  exact cleanLoop_component rooted g out dd name h (by omega)

theorem cleanLoop_append_component (rooted : Bool) (name : Str) (h : IsComponent name) :
    ∀ (fuel2 : Nat) (p : Str) (fuel : Nat) (out : Str) (dd : Nat),
      p.length ≤ fuel2 → p.length + 2 ≤ fuel →
      cleanLoop rooted fuel (p ++ '/' :: name) out dd =
        appendElement rooted (cleanLoop rooted fuel2 p out dd) name := by
  intro fuel2
  induction fuel2 with
  | zero =>
    intro p fuel out dd hp hf
    have hp0 : p = [] := List.length_eq_zero.mp (by omega)
    subst hp0
    simp only [List.nil_append, cleanLoop_nil]
    exact cleanLoop_slash_component rooted fuel out dd name h (by simpa using hf)
  | succ f2 ih =>
    intro p fuel out dd hp hf
    cases p with
    | nil =>
      simp only [List.nil_append, cleanLoop_nil]
      exact cleanLoop_slash_component rooted fuel out dd name h (by simpa using hf)
    | cons c rest =>
      simp only [List.length_cons] at hp hf
      obtain ⟨f, rfl⟩ : ∃ f, fuel = f + 1 := ⟨fuel - 1, by omega⟩
      have hsepX : (fun b => !isPathSeparator b) '/' = false := by decide
      have hnil : ∀ t : Str, (t ++ '/' :: name = [] ∨
          (t ++ '/' :: name).head?.any isPathSeparator = true) ↔
          (t = [] ∨ t.head?.any isPathSeparator = true) := by
        intro t
        cases t with
        | nil => simp [isPathSeparator]
        | cons a t2 => simp
      have hhead : (rest ++ '/' :: name).head? = some '.' ↔ rest.head? = some '.' := by
        cases rest with
        | nil => simp
        | cons a t2 => simp
      rw [List.cons_append, cleanLoop_cons, cleanLoop_cons]
      by_cases hs : isPathSeparator c = true
      · rw [if_pos hs, if_pos hs]
        exact ih rest f out dd (by omega) (by omega)
      · rw [if_neg hs, if_neg hs]
        by_cases h1 : c = '.' ∧ (rest = [] ∨ rest.head?.any isPathSeparator = true)
        · have h1b : c = '.' ∧ (rest ++ '/' :: name = [] ∨
              (rest ++ '/' :: name).head?.any isPathSeparator = true) :=
            ⟨h1.1, (hnil rest).mpr h1.2⟩
          rw [if_pos h1, if_pos h1b]
          exact ih rest f out dd (by omega) (by omega)
        · have h1b : ¬ (c = '.' ∧ (rest ++ '/' :: name = [] ∨
              (rest ++ '/' :: name).head?.any isPathSeparator = true)) :=
            fun hh => h1 ⟨hh.1, (hnil rest).mp hh.2⟩
          rw [if_neg h1, if_neg h1b]
          by_cases h2 : c = '.' ∧ rest.head? = some '.' ∧
              (rest.tail = [] ∨ rest.tail.head?.any isPathSeparator = true)
          · obtain ⟨a, rest2, hrest⟩ : ∃ a rest2, rest = a :: rest2 := by
              cases rest with
              | nil => simp at h2
              | cons a t2 => exact ⟨a, t2, rfl⟩
            subst hrest
            have htail : (a :: rest2 ++ '/' :: name).tail = rest2 ++ '/' :: name := rfl
            have h2b : c = '.' ∧ (a :: rest2 ++ '/' :: name).head? = some '.' ∧
                ((a :: rest2 ++ '/' :: name).tail = [] ∨
                  (a :: rest2 ++ '/' :: name).tail.head?.any isPathSeparator = true) := by
              refine ⟨h2.1, hhead.mpr h2.2.1, ?_⟩
              rw [htail]
              exact (hnil rest2).mpr h2.2.2
            rw [if_pos h2, if_pos h2b, htail]
            simp only [List.tail_cons, List.length_cons] at hp hf ⊢
            by_cases hgt : out.length > dd
            · rw [if_pos hgt, if_pos hgt]
              cases out.reverse with
              | nil => exact ih rest2 f out dd (by omega) (by omega)
              | cons last rev => exact ih rest2 f _ dd (by omega) (by omega)
            · rw [if_neg hgt, if_neg hgt]
              cases rooted with
              | true =>
                simp only [Bool.not_true, Bool.false_eq_true, if_false]
                exact ih rest2 f out dd (by omega) (by omega)
              | false =>
                simp only [Bool.not_false, if_true]
                exact ih rest2 f _ _ (by omega) (by omega)
          · have h2b : ¬ (c = '.' ∧ (rest ++ '/' :: name).head? = some '.' ∧
                ((rest ++ '/' :: name).tail = [] ∨
                  (rest ++ '/' :: name).tail.head?.any isPathSeparator = true)) := by
              rintro ⟨hc, hh, ht⟩
              have hh2 := hhead.mp hh
              cases rest with
              | nil => simp at hh2
              | cons a t2 =>
                apply h2
                refine ⟨hc, hh2, ?_⟩
                have htail : (a :: t2 ++ '/' :: name).tail = t2 ++ '/' :: name := rfl
                rw [htail] at ht
                exact (hnil t2).mp ht
            rw [if_neg h2, if_neg h2b]
            have hE : c :: (rest ++ '/' :: name) = (c :: rest) ++ '/' :: name := rfl
            rw [hE, takeWhile_append_stop _ _ _ _ hsepX, dropWhile_append_stop _ _ _ _ hsepX]
            have hlen : ((c :: rest).dropWhile (fun b => !isPathSeparator b)).length ≤
                rest.length := by
              have hd : (c :: rest).dropWhile (fun b => !isPathSeparator b) =
                  rest.dropWhile (fun b => !isPathSeparator b) := by
                simp [List.dropWhile, hs]
              rw [hd]
              exact dropWhile_length_le _ _
            exact ih _ f _ dd (by omega) (by omega)

/-- The fuel `filepath.Clean` starts its loop with is enough: any two amounts of
fuel that are at least the number of bytes left give the same buffer. -/
theorem cleanLoop_fuel (rooted : Bool) : ∀ (fuel1 fuel2 : Nat) (input out : Str) (dd : Nat),
    input.length ≤ fuel1 → input.length ≤ fuel2 →
    cleanLoop rooted fuel1 input out dd = cleanLoop rooted fuel2 input out dd := by
  intro fuel1
  induction fuel1 with
  | zero =>
    intro fuel2 input out dd h1 _
    have h0 : input = [] := List.length_eq_zero.mp (by omega)
    subst h0
    rw [cleanLoop_nil, cleanLoop_nil]
  | succ a ih =>
    intro fuel2 input out dd h1 h2
    cases input with
    | nil => rw [cleanLoop_nil, cleanLoop_nil]
    | cons c rest =>
      simp only [List.length_cons] at h1 h2
      obtain ⟨b, rfl⟩ : ∃ b, fuel2 = b + 1 := ⟨fuel2 - 1, by omega⟩
      have htail : rest.tail.length ≤ rest.length := by simp
      rw [cleanLoop_cons, cleanLoop_cons]
      by_cases hs : isPathSeparator c = true
      · rw [if_pos hs, if_pos hs]
        exact ih b rest out dd (by omega) (by omega)
      · rw [if_neg hs, if_neg hs]
        split
        · exact ih b rest out dd (by omega) (by omega)
        · split
          · split
            · cases out.reverse with
              | nil => exact ih b _ _ _ (by omega) (by omega)
              | cons last rev => exact ih b _ _ _ (by omega) (by omega)
            · split
              · exact ih b _ _ _ (by omega) (by omega)
              · exact ih b _ _ _ (by omega) (by omega)
          · have hd : (c :: rest).dropWhile (fun x => !isPathSeparator x) =
                rest.dropWhile (fun x => !isPathSeparator x) := by
              simp [List.dropWhile, hs]
            have hlen := dropWhile_length_le (fun x => !isPathSeparator x) rest
            rw [hd]
            exact ih b _ _ _ (by omega) (by omega)

theorem backtrack_take (dd : Nat) : ∀ (rev : List Char) (c : Char), dd ≤ rev.length →
    ∃ m, dd ≤ m ∧ m ≤ rev.length ∧
      (backtrack dd c rev).reverse = (rev.reverse ++ [c]).take m ∧
      (m = dd ∨ ∃ tail, (rev.reverse ++ [c]).take m ++ '/' :: tail = rev.reverse ++ [c]) := by
  intro rev
  induction rev with
  | nil =>
    intro c h
    refine ⟨0, by simpa using h, le_refl _, by simp [backtrack], Or.inl ?_⟩
    simpa using h.antisymm (Nat.zero_le _) |>.symm
  | cons c2 rev2 ih =>
    intro c h
    by_cases hc : (c2 :: rev2).length > dd ∧ ¬ isPathSeparator c = true
    · have hb : backtrack dd c (c2 :: rev2) = backtrack dd c2 rev2 := by
        rw [backtrack, if_pos hc]
      have hlt : dd ≤ rev2.length := by
        have hgt := hc.1
        simp at hgt
        omega
      obtain ⟨m, h1, h2, h3, h4⟩ := ih c2 hlt
      have ht : ((rev2.reverse ++ [c2]) ++ [c]).take m = (rev2.reverse ++ [c2]).take m :=
        List.take_append_of_le_length (by simp; omega)
      refine ⟨m, h1, by simp; omega, ?_, ?_⟩
      · rw [hb, h3, List.reverse_cons, ht]
      · rw [List.reverse_cons, ht]
        rcases h4 with h4 | ⟨tail, h4⟩
        · exact Or.inl h4
        · refine Or.inr ⟨tail ++ [c], ?_⟩
          have h5 := congrArg (fun l => l ++ [c]) h4
          simp only [List.append_assoc, List.cons_append] at h5
          simpa only [List.append_assoc] using h5
    · have hb : backtrack dd c (c2 :: rev2) = c2 :: rev2 := by
        rw [backtrack, if_neg hc]
      refine ⟨(c2 :: rev2).length, h, le_refl _, ?_, ?_⟩
      · rw [hb]
        have : (c2 :: rev2).length = (c2 :: rev2).reverse.length := by simp
        rw [this, List.take_left]
      · have hlen : (c2 :: rev2).length = (c2 :: rev2).reverse.length := by simp
        by_cases hgt : (c2 :: rev2).length > dd
        · right
          have hsep : isPathSeparator c = true := by
            by_contra hn; exact hc ⟨hgt, hn⟩
          have hc2 : c = '/' := by simpa [isPathSeparator] using hsep
          refine ⟨[], ?_⟩
          rw [hlen, List.take_left, hc2]
        · left; omega

theorem cleanLoop_rooted_head : ∀ (fuel : Nat) (input out : Str),
    (∃ t, out = '/' :: t) → ∃ t, cleanLoop true fuel input out 1 = '/' :: t := by
  intro fuel
  induction fuel with
  | zero => intro input out h; simpa [cleanLoop] using h
  | succ f ih =>
    intro input out h
    cases input with
    | nil => simpa [cleanLoop] using h
    | cons c rest =>
      rw [cleanLoop_cons]
      split
      · exact ih _ _ h
      · split
        · exact ih _ _ h
        · split
          · split
            · rename_i hgt
              cases hrev : out.reverse with
              | nil => exact ih _ _ h
              | cons last rev =>
                simp only
                apply ih
                have hout : out = rev.reverse ++ [last] := by
                  have := congrArg List.reverse hrev
                  simpa using this
                have hlen : 1 ≤ rev.length := by
                  rw [hout] at hgt; simp at hgt; omega
                obtain ⟨m, h1, h2, h3, _⟩ := backtrack_take 1 rev last hlen
                rw [h3, ← hout]
                obtain ⟨t, ht⟩ := h
                rw [ht]
                obtain ⟨k, rfl⟩ : ∃ k, m = k + 1 := ⟨m - 1, by omega⟩
                exact ⟨t.take k, by simp⟩
            · simp only [Bool.not_true, Bool.false_eq_true, if_false]
              exact ih _ _ h
          · apply ih
            obtain ⟨t, ht⟩ := h
            rw [ht]
            split <;> simp

theorem CleanInv_take (out : Str) (dd m : Nat) (hinv : CleanInv out dd) (h1 : dd ≤ m)
    (h2 : m ≤ out.length)
    (h4 : m = dd ∨ ∃ tail, out.take m ++ '/' :: tail = out) : CleanInv (out.take m) dd := by
  obtain ⟨ha, _, hb2, _, hc2⟩ := hinv
  have hlen : (out.take m).length = m := by simp [h2]
  refine ⟨?_, ?_, ?_, by omega, ?_⟩
  · cases m with
    | zero => simp
    | succ k =>
      cases out with
      | nil => simp
      | cons x t => simpa using ha
  · intro hF
    have hm : m = 1 := by rw [← hlen, hF]; rfl
    rcases h4 with h4 | ⟨tail, h4⟩
    · omega
    · rw [hF] at h4
      apply hb2
      rw [← h4]; rfl
  · intro hF
    have hm : 2 ≤ m := by
      have := congrArg List.length hF
      simp at this
      omega
    apply hb2
    rw [← hF, List.take_take, Nat.min_eq_left hm]
  · rcases hc2 with h | ⟨h, h3⟩
    · exact Or.inl h
    · refine Or.inr ⟨h, ?_⟩
      rw [List.take_take, Nat.min_eq_left (by omega)]
      exact h3

theorem CleanInv_dotdot (out : Str) (dd : Nat) (hinv : CleanInv out dd)
    (hle : ¬ out.length > dd) :
    CleanInv ((if out.length > 0 then out ++ ['/'] else out) ++ ['.', '.'])
      ((if out.length > 0 then out ++ ['/'] else out) ++ ['.', '.']).length := by
  obtain ⟨_, _, _, hc1, hc2⟩ := hinv
  cases out with
  | nil =>
    simp only [List.length_nil, gt_iff_lt, lt_self_iff_false, if_false, List.nil_append]
    refine ⟨by decide, by decide, by decide, le_refl _, Or.inr ⟨le_refl _, rfl⟩⟩
  | cons x t =>
    have hdd : 2 ≤ dd ∧ (x :: t).take 2 = ['.', '.'] := by
      rcases hc2 with h | h
      · simp at hle; omega
      · exact h
    obtain ⟨y, t2, rfl⟩ : ∃ y t2, t = y :: t2 := by
      cases t with
      | nil => simp at hdd
      | cons y t2 => exact ⟨y, t2, rfl⟩
    have hxy : x = '.' ∧ y = '.' := by simpa using hdd.2
    obtain ⟨rfl, rfl⟩ := hxy
    simp only [List.length_cons, gt_iff_lt, Nat.zero_lt_succ, if_true]
    refine ⟨by simp, by simp, by simp, le_refl _, Or.inr ⟨by simp, by simp⟩⟩

theorem CleanInv_element (out : Str) (dd : Nat) (c : Char) (rest : Str)
    (hinv : CleanInv out dd) (hs : ¬ isPathSeparator c = true)
    (h1 : ¬ (c = '.' ∧ (rest = [] ∨ rest.head?.any isPathSeparator = true))) :
    CleanInv ((if (false && out.length != 1) || (!false && out.length != 0) then out ++ ['/']
      else out) ++ (c :: rest).takeWhile (fun b => !isPathSeparator b)) dd := by
  obtain ⟨ha, hb, hb2, hc1, hc2⟩ := hinv
  have htw : (c :: rest).takeWhile (fun b => !isPathSeparator b) =
      c :: rest.takeWhile (fun b => !isPathSeparator b) := by
    simp [List.takeWhile, hs]
  have hcs : c ≠ '/' := by
    intro h; apply hs; rw [h]; rfl
  rw [htw]
  cases out with
  | nil =>
    simp only [List.length_nil, Bool.false_and, Bool.not_false, Bool.true_and, Bool.false_or,
      bne_self_eq_false, Bool.false_eq_true, if_false, List.nil_append]
    have hdd : dd = 0 := by simpa using hc1
    refine ⟨by simpa using hcs, ?_, ?_, by simp [hdd], Or.inl hdd⟩
    · intro hE
      have hc : c = '.' := by simpa using (List.cons.inj hE).1
      have ht : rest.takeWhile (fun b => !isPathSeparator b) = [] := (List.cons.inj hE).2
      apply h1
      refine ⟨hc, ?_⟩
      cases rest with
      | nil => exact Or.inl rfl
      | cons a t =>
        right
        simp only [List.takeWhile] at ht
        cases hsa : isPathSeparator a with
        | true => simp [hsa]
        | false => simp [hsa] at ht
    · intro hE
      cases htk : rest.takeWhile (fun b => !isPathSeparator b) with
      | nil => rw [htk] at hE; simp at hE
      | cons a t =>
        rw [htk] at hE
        have ha2 : a = '/' := by
          have hE2 : c = '.' ∧ a = '/' := by simpa using hE
          exact hE2.2
        have hmem : a ∈ rest.takeWhile (fun b => !isPathSeparator b) := by rw [htk]; simp
        have := List.mem_takeWhile_imp hmem
        rw [ha2] at this
        simp [isPathSeparator] at this
  | cons x t =>
    have hx : x ≠ '/' := by simpa using ha
    simp only [List.length_cons, Bool.false_and, Bool.not_false, Bool.true_and, Bool.false_or,
      bne_iff_ne, ne_eq, Nat.add_one_ne_zero, not_false_eq_true, if_true]
    refine ⟨by simpa using hx, by simp, ?_, by simp at hc1 ⊢; omega, ?_⟩
    · cases t with
      | nil =>
        intro hE
        apply hb
        have : x = '.' := by simpa using hE
        rw [this]
      | cons y t2 =>
        intro hE
        apply hb2
        simpa using hE
    · rcases hc2 with h | ⟨h, h3⟩
      · exact Or.inl h
      · refine Or.inr ⟨h, ?_⟩
        cases t with
        | nil => simp at hc1; omega
        | cons y t2 => simpa using h3

theorem cleanLoop_unrooted_inv : ∀ (fuel : Nat) (input out : Str) (dd : Nat),
    CleanInv out dd → ∃ dd2, CleanInv (cleanLoop false fuel input out dd) dd2 := by
  intro fuel
  induction fuel with
  | zero => intro input out dd h; exact ⟨dd, by simpa [cleanLoop] using h⟩
  | succ f ih =>
    intro input out dd h
    cases input with
    | nil => exact ⟨dd, by simpa [cleanLoop] using h⟩
    | cons c rest =>
      rw [cleanLoop_cons]
      by_cases hs : isPathSeparator c = true
      · rw [if_pos hs]; exact ih _ _ _ h
      · rw [if_neg hs]
        by_cases h1 : c = '.' ∧ (rest = [] ∨ rest.head?.any isPathSeparator = true)
        · rw [if_pos h1]; exact ih _ _ _ h
        · rw [if_neg h1]
          split
          · split
            · rename_i hgt
              cases hrev : out.reverse with
              | nil => exact ih _ _ _ h
              | cons last rev =>
                simp only
                apply ih
                have hout : out = rev.reverse ++ [last] := by
                  have := congrArg List.reverse hrev
                  simpa using this
                have hlen : dd ≤ rev.length := by
                  rw [hout] at hgt; simp at hgt; omega
                obtain ⟨m, h1, h2, h3, h4⟩ := backtrack_take dd rev last hlen
                rw [h3, ← hout]
                rw [← hout] at h4
                exact CleanInv_take out dd m h h1 (by rw [hout]; simp; omega) h4
            · rename_i hgt
              simp only [Bool.not_false, if_true]
              exact ih _ _ _ (CleanInv_dotdot out dd h hgt)
          · exact ih _ _ _ (CleanInv_element out dd c rest h hs h1)

theorem Clean_rooted (c : Char) (rest : Str) (h : isPathSeparator c = true) :
    Clean (c :: rest) =
      if (cleanLoop true (c :: rest).length rest ['/'] 1).length = 0 then ['.']
      else cleanLoop true (c :: rest).length rest ['/'] 1 := by
  simp only [Clean, h, if_true]

theorem Clean_unrooted (c : Char) (rest : Str) (h : isPathSeparator c = false) :
    Clean (c :: rest) =
      if (cleanLoop false (c :: rest).length (c :: rest) [] 0).length = 0 then ['.']
      else cleanLoop false (c :: rest).length (c :: rest) [] 0 := by
  simp only [Clean, h, Bool.false_eq_true, if_false]

theorem appendElement_length (rooted : Bool) (out name : Str) (h : name ≠ []) :
    (appendElement rooted out name).length ≠ 0 := by
  cases name with
  | nil => exact absurd rfl h
  | cons a t => simp [appendElement]

theorem Join_component (dir name : Str) (h : IsComponent name) :
    Join dir name = childPath (Clean dir) name := by
  have hne : name ≠ [] := h.1
  have hlen : 1 ≤ name.length := by
    cases name with
    | nil => exact absurd rfl hne
    | cons a t => simp
  cases dir with
  | nil =>
    have hJ : Join [] name = Clean name := by
      simp [Join, hne]
    rw [hJ]
    obtain ⟨c, rest, rfl⟩ : ∃ c rest, name = c :: rest := by
      cases name with
      | nil => exact absurd rfl hne
      | cons a t => exact ⟨a, t, rfl⟩
    have hc : isPathSeparator c = false := by
      have : c ≠ '/' := fun hh => h.2.1 (by rw [hh]; simp)
      simp [isPathSeparator, this]
    have hloop := cleanLoop_component false (c :: rest).length [] 0 (c :: rest) h (by simp)
    rw [Clean_unrooted c rest hc, hloop, if_neg (appendElement_length _ _ _ hne)]
    simp [appendElement, childPath, Clean]
  | cons d rest =>
    have hJ : Join (d :: rest) name = Clean (d :: (rest ++ '/' :: name)) := by
      simp [Join]
    rw [hJ]
    cases hd : isPathSeparator d with
    | true =>
      have hsplit := cleanLoop_append_component true name h (d :: rest).length rest
        (d :: (rest ++ '/' :: name)).length ['/'] 1 (by simp) (by simp)
      obtain ⟨t, ht⟩ := cleanLoop_rooted_head (d :: rest).length rest ['/'] ⟨[], rfl⟩
      rw [Clean_rooted _ _ hd, Clean_rooted _ _ hd, hsplit, ht,
        if_neg (appendElement_length _ _ _ hne)]
      cases t with
      | nil => simp [appendElement, childPath]
      | cons a t2 => simp [appendElement, childPath]
    | false =>
      have hsplit := cleanLoop_append_component false name h (d :: rest).length (d :: rest)
        (d :: (rest ++ '/' :: name)).length [] 0 (by simp) (by simp; omega)
      obtain ⟨dd2, hinv⟩ := cleanLoop_unrooted_inv (d :: rest).length (d :: rest) [] 0
        ⟨by simp, by simp, by simp, le_refl _, Or.inl rfl⟩
      have hE : d :: (rest ++ '/' :: name) = (d :: rest) ++ '/' :: name := rfl
      rw [Clean_unrooted _ _ hd, Clean_unrooted _ _ hd]
      rw [hE] at hsplit ⊢
      rw [hsplit, if_neg (appendElement_length _ _ _ hne)]
      generalize cleanLoop false (d :: rest).length (d :: rest) [] 0 = o at hinv
      obtain ⟨ha, hb, _, _, _⟩ := hinv
      cases o with
      | nil => simp [appendElement, childPath]
      | cons x t =>
        have hx : x ≠ '/' := by simpa using ha
        have h1 : x :: t ≠ ['.'] := hb
        have h2 : x :: t ≠ ['/'] := by
          intro hE; exact hx (List.cons.inj hE).1
        simp [appendElement, childPath, h1, h2]

/-! ## Lemmas on the response writer -/

theorem writeHeader_status (w : ResponseWriter) (code : Nat) (h : w.status = none) :
    (writeHeader w code).status = some code := by
  simp [writeHeader, h]

theorem write_status (w : ResponseWriter) (data : Str) (code : Nat)
    (h : w.status = some code) : (write w data).status = some code := by
  simp [write, writeHeader, h]

theorem write_status_fresh (w : ResponseWriter) (data : Str) (h : w.status = none) :
    (write w data).status = some 200 := by
  simp [write, writeHeader, h]

theorem headerGet_headerSet (w : ResponseWriter) (k v : Str) :
    headerGet (headerSet w k v) k = some v := by
  simp [headerGet, headerSet, List.lookup]

theorem lookup_filter_ne (l : List (Str × Str)) (k k2 : Str) (h : k2 ≠ k) :
    (l.filter (fun kv => kv.1 != k)).lookup k2 = l.lookup k2 := by
  induction l with
  | nil => rfl
  | cons kv t ih =>
    obtain ⟨a, b⟩ := kv
    by_cases ha : a = k
    · subst ha
      have hb : (k2 == a) = false := by simpa using h
      simp [List.filter, List.lookup, hb, ih]
    · have hf : (a != k) = true := by simpa using ha
      simp only [List.filter, hf, List.lookup]
      rw [ih]

theorem headerGet_headerSet_ne (w : ResponseWriter) (k v k2 : Str) (h : k2 ≠ k) :
    headerGet (headerSet w k v) k2 = headerGet w k2 := by
  have hb : (k2 == k) = false := by simpa using h
  simp only [headerGet, headerSet, List.lookup, hb]
  exact lookup_filter_ne w.header k k2 h

theorem httpError_status (w : ResponseWriter) (msg : Str) (code : Nat) (h : w.status = none) :
    (httpError w msg code).status = some code := by
  simp [httpError, fprintln, write, writeHeader, headerSet, h]

theorem httpNotFound_status (w : ResponseWriter) (h : w.status = none) :
    (httpNotFound w).status = some 404 :=
  httpError_status w _ 404 h

/-! ## Lemmas on the handlers -/

theorem IsDir_eq_false (e : DirEntry) : e.IsDir = false ↔ e.mode ≠ FileType.dir := by
  simp [DirEntry.IsDir]

theorem isListed_iff (host : Host) (e : DirEntry) :
    isListed host e = true ↔
      e.IsDir = false ∧ ToLower host (Ext e.name) ∈ supportedExtensions := by
  rw [ToLower_eq_lowercased]
  simp [isListed, DirEntry.IsDir]

theorem listFold_eq (host : Host) (entries : List DirEntry) (init : List Str) :
    entries.foldl (fun images entry =>
      if !entry.IsDir then
        let ext := ToLower host (Ext entry.name)
        match imageExtensions.lookup ext with
        | some _ => images ++ [entry.name]
        | none => images
      else images) init =
    init ++ (entries.filter (isListed host)).map DirEntry.name := by
  induction entries generalizing init with
  | nil => simp
  | cons e t ih =>
    rw [List.foldl_cons, ih]
    by_cases hd : e.IsDir = true
    · have hnl : isListed host e = false := by
        cases hL : isListed host e with
        | false => rfl
        | true => rw [((isListed_iff host e).mp hL).1] at hd; exact absurd hd (by simp)
      simp [hnl, hd]
    · have hd2 : e.IsDir = false := by simpa using hd
      cases hl : imageExtensions.lookup (ToLower host (Ext e.name)) with
      | none =>
        have hm : ToLower host (Ext e.name) ∉ supportedExtensions := by
          intro hmem
          have := (lookup_isSome_iff _).mpr hmem
          simp [hl] at this
        have hnl : isListed host e = false := by
          cases hL : isListed host e with
          | false => rfl
          | true => exact absurd ((isListed_iff host e).mp hL).2 hm
        simp [hnl, hd2, hl]
      | some ct =>
        have hm : ToLower host (Ext e.name) ∈ supportedExtensions :=
          (lookup_isSome_iff _).mp (by simp [hl])
        have hL : isListed host e = true := (isListed_iff host e).mpr ⟨hd2, hm⟩
        simp [hL, hd2, hl]

theorem listAvailableImages_ok (host : Host) (fs : FS) (dir : Str) (entries : List DirEntry)
    (h : fs.osReadDir dir = .ok entries) :
    listAvailableImages host fs dir = .ok ((entries.filter (isListed host)).map DirEntry.name) := by
  unfold listAvailableImages
  rw [h]
  simp only
  rw [listFold_eq]
  simp

theorem write_header (w : ResponseWriter) (data : Str) : (write w data).header = w.header := by
  unfold write writeHeader
  cases w.status <;> rfl

theorem write_of_status (w : ResponseWriter) (data : Str) (code : Nat)
    (h : w.status = some code) : write w data = { w with body := w.body ++ data } := by
  simp [write, writeHeader, h]

theorem httpRedirect_status (host : Host) (w : ResponseWriter) (r : Request) (url : Str)
    (code : Nat) (h : w.status = none) : (httpRedirect host w r url code).status = some code := by
  unfold httpRedirect
  simp only
  split
  · apply write_status
    apply writeHeader_status
    split <;> simp [headerSet, h]
  · apply writeHeader_status
    split <;> simp [headerSet, h]

theorem httpRedirect_location (host : Host) (w : ResponseWriter) (r : Request) (url : Str)
    (code : Nat) :
    headerGet (httpRedirect host w r url code) "Location".toList =
      some (host.redirectURL r.path url) := by
  have hne : "Location".toList ≠ "Content-Type".toList := by decide
  have key : ∀ w2 : ResponseWriter,
      headerGet w2 "Location".toList = some (host.redirectURL r.path url) →
      headerGet (writeHeader w2 code) "Location".toList = some (host.redirectURL r.path url) := by
    intro w2 h2
    unfold writeHeader
    cases hs : w2.status <;> simpa [headerGet] using h2
  unfold httpRedirect
  simp only
  split
  · unfold fprintln headerGet
    rw [write_header]
    apply key
    split
    · rw [headerGet_headerSet_ne _ _ _ _ hne]; exact headerGet_headerSet _ _ _
    · exact headerGet_headerSet _ _ _
  · apply key
    split
    · rw [headerGet_headerSet_ne _ _ _ _ hne]; exact headerGet_headerSet _ _ _
    · exact headerGet_headerSet _ _ _

theorem pageData_fold (source : ImageSource) (images : List Str) (init : List IndexPageData) :
    images.foldl (fun pageData imgName =>
      pageData ++ [({ FileName := imgName, StaticPath := source.StaticPrefix } : IndexPageData)])
      init = init ++ indexPageData source images := by
  induction images generalizing init with
  | nil => simp [indexPageData]
  | cons n t ih =>
    rw [List.foldl_cons, ih]
    simp [indexPageData]

theorem random_handler_redirect (host : Host) (fs : FS) (intn : Nat → Nat)
    (source : ImageSource) (r : Request) (w : ResponseWriter) (images : List Str) (name : Str)
    (hlist : listAvailableImages host fs source.Directory = .ok images)
    (hget : images.get? (intn images.length) = some name) :
    createRandomImageRedirectHandler host fs intn source r w =
      ⟨httpRedirect host w r (source.StaticPrefix ++ name) 302, [.readDir source.Directory]⟩ := by
  have hne : images.length ≠ 0 := by
    intro h0
    have : images = [] := List.length_eq_zero.mp h0
    rw [this] at hget
    simp at hget
  unfold createRandomImageRedirectHandler
  simp only [hlist, hne, if_false, hget]

theorem static_file_outcome (host : Host) (fs : FS) (source : ImageSource) (r : Request)
    (w : ResponseWriter) (name ct : Str)
    (hpath : r.path = source.StaticPrefix ++ name) (hne : name ≠ [])
    (hb : Base name = name)
    (hl : imageExtensions.lookup (ToLower host (Ext name)) = some ct) :
    createStaticFileHandler host fs source r w =
      match fs.osOpen (Join source.Directory name) with
      | .error .notExist => ⟨httpNotFound w, [.openFile (Join source.Directory name)]⟩
      | .error (.other _) =>
        ⟨httpError w "Internal Server Error: Could not open image file.".toList 500,
          [.openFile (Join source.Directory name)]⟩
      | .ok img =>
        match img.stat with
        | .error _ =>
          ⟨httpError w "Internal Server Error: Could not get image file info.".toList 500,
            [.openFile (Join source.Directory name)]⟩
        | .ok fileInfo =>
          ⟨serveContent host r name fileInfo.modTime img
            (headerSet w "Content-Type".toList ct), [.openFile (Join source.Directory name)]⟩ := by
  have hbare : r.path ≠ source.StaticPrefix := by
    rw [hpath]; simpa using hne
  have htrim : TrimPrefix r.path source.StaticPrefix = name := by
    rw [hpath]; exact TrimPrefix_append _ _
  unfold createStaticFileHandler
  simp only [hbare, if_false, htrim, hne, hb, ne_eq, not_true_eq_false, hl]

theorem static_file_unsupported (host : Host) (fs : FS) (source : ImageSource) (r : Request)
    (w : ResponseWriter) (name : Str)
    (hpath : r.path = source.StaticPrefix ++ name) (hne : name ≠ [])
    (hb : Base name = name)
    (hl : imageExtensions.lookup (ToLower host (Ext name)) = none) :
    createStaticFileHandler host fs source r w = ⟨httpNotFound w, []⟩ := by
  have hbare : r.path ≠ source.StaticPrefix := by
    rw [hpath]; simpa using hne
  have htrim : TrimPrefix r.path source.StaticPrefix = name := by
    rw [hpath]; exact TrimPrefix_append _ _
  unfold createStaticFileHandler
  simp only [hbare, if_false, htrim, hne, hb, ne_eq, not_true_eq_false, hl]

theorem mem_listed (host : Host) (fs : FS) (dir : Str) (entries : List DirEntry)
    (images : List Str) (name : Str)
    (hread : fs.osReadDir dir = .ok entries)
    (hlist : listAvailableImages host fs dir = .ok images) (hname : name ∈ images) :
    ∃ e ∈ entries, e.name = name ∧ e.IsDir = false ∧
      ToLower host (Ext name) ∈ supportedExtensions := by
  rw [listAvailableImages_ok host fs dir entries hread] at hlist
  have himg : images = (entries.filter (isListed host)).map DirEntry.name := by
    injection hlist with h; exact h.symm
  rw [himg, List.mem_map] at hname
  obtain ⟨e, he, hen⟩ := hname
  rw [List.mem_filter] at he
  have hL := (isListed_iff host e).mp he.2
  exact ⟨e, he.1, hen, hL.1, hen ▸ hL.2⟩

theorem root_items_fold (order : List ImageSource) (w : ResponseWriter)
    (h : w.status = some 200) :
    order.foldl (fun w source =>
      let w := write w ("<li><strong>".toList ++ source.Name ++ "</strong><ul>".toList)
      let w :=
        if source.RandomPath ≠ [] then
          write w ("<li><a href=\"".toList ++ source.RandomPath ++
            "\">Random Image</a></li>".toList)
        else w
      let w :=
        if source.StaticPrefix ≠ [] then
          write w ("<li><a href=\"".toList ++ source.StaticPrefix ++
            "\">Image Index</a></li>".toList)
        else w
      let w :=
        if source.WebPath ≠ [] then
          write w ("<li><a href=\"".toList ++ source.WebPath ++
            "\">Web Viewer</a></li>".toList)
        else w
      fprintln w "</ul></li>".toList) w =
    { w with body := w.body ++ (order.map itemHtml).flatten } := by
  induction order generalizing w with
  | nil => simp
  | cons s t ih =>
    rw [List.foldl_cons]
    have hw : ∀ (x : ResponseWriter) (d : Str), x.status = some 200 →
        write x d = { x with body := x.body ++ d } := fun x d hx => write_of_status x d 200 hx
    have step : (fprintln
        (if s.WebPath ≠ [] then
          write
            (if s.StaticPrefix ≠ [] then
              write
                (if s.RandomPath ≠ [] then
                  write (write w ("<li><strong>".toList ++ s.Name ++ "</strong><ul>".toList))
                    ("<li><a href=\"".toList ++ s.RandomPath ++
                      "\">Random Image</a></li>".toList)
                else write w ("<li><strong>".toList ++ s.Name ++ "</strong><ul>".toList))
                ("<li><a href=\"".toList ++ s.StaticPrefix ++
                  "\">Image Index</a></li>".toList)
            else
              (if s.RandomPath ≠ [] then
                write (write w ("<li><strong>".toList ++ s.Name ++ "</strong><ul>".toList))
                  ("<li><a href=\"".toList ++ s.RandomPath ++
                    "\">Random Image</a></li>".toList)
              else write w ("<li><strong>".toList ++ s.Name ++ "</strong><ul>".toList)))
            ("<li><a href=\"".toList ++ s.WebPath ++ "\">Web Viewer</a></li>".toList)
        else
          (if s.StaticPrefix ≠ [] then
            write
              (if s.RandomPath ≠ [] then
                write (write w ("<li><strong>".toList ++ s.Name ++ "</strong><ul>".toList))
                  ("<li><a href=\"".toList ++ s.RandomPath ++
                    "\">Random Image</a></li>".toList)
              else write w ("<li><strong>".toList ++ s.Name ++ "</strong><ul>".toList))
              ("<li><a href=\"".toList ++ s.StaticPrefix ++
                "\">Image Index</a></li>".toList)
          else
            (if s.RandomPath ≠ [] then
              write (write w ("<li><strong>".toList ++ s.Name ++ "</strong><ul>".toList))
                ("<li><a href=\"".toList ++ s.RandomPath ++
                  "\">Random Image</a></li>".toList)
            else write w ("<li><strong>".toList ++ s.Name ++ "</strong><ul>".toList))))
        "</ul></li>".toList) = { w with body := w.body ++ itemHtml s } := by
      by_cases h1 : s.RandomPath = [] <;> by_cases h2 : s.StaticPrefix = [] <;>
        by_cases h3 : s.WebPath = [] <;>
        simp [fprintln, hw, h, h1, h2, h3, itemHtml, configuredLinks, linkHtml, List.filter_cons]
    simp only [] at step ⊢
    rw [step, ih _ (by simpa using h)]
    simp

theorem registerRoutes_fold (order : List ImageSource) (init : List (Str × Route)) :
    (order.foldl (fun mux source =>
      let mux :=
        if source.RandomPath ≠ [] then mux ++ [(source.RandomPath, Route.random source)] else mux
      let mux :=
        if source.StaticPrefix ≠ [] then mux ++ [(source.StaticPrefix, Route.static source)]
        else mux
      if source.WebPath ≠ [] then mux ++ [(source.WebPath, Route.web source)] else mux)
      init).map Prod.fst = init.map Prod.fst ++ order.flatMap routePaths := by
  induction order generalizing init with
  | nil => simp
  | cons s t ih =>
    rw [List.foldl_cons, ih]
    by_cases h1 : s.RandomPath = [] <;> by_cases h2 : s.StaticPrefix = [] <;>
      by_cases h3 : s.WebPath = [] <;>
      simp [h1, h2, h3, routePaths, List.filter_cons]

theorem registerRoutes_patterns (order : List ImageSource) :
    (registerRoutes order).map Prod.fst = order.flatMap routePaths ++ ["/".toList] := by
  unfold registerRoutes
  simp only [List.map_append, registerRoutes_fold]
  simp

/-! ## Lemmas on `http.ServeContent` -/

theorem writeHeader_header (w : ResponseWriter) (code : Nat) :
    (writeHeader w code).header = w.header := by
  unfold writeHeader
  cases w.status <;> rfl

theorem writeHeader_body (w : ResponseWriter) (code : Nat) :
    (writeHeader w code).body = w.body := by
  unfold writeHeader
  cases w.status <;> rfl

theorem headerGet_of_header (w1 w2 : ResponseWriter) (k : Str) (h : w1.header = w2.header) :
    headerGet w1 k = headerGet w2 k := by
  simp [headerGet, h]

theorem setLastModified_get (host : Host) (w : ResponseWriter) (modTime : Nat) (k : Str)
    (hk : k ≠ "Last-Modified".toList) :
    headerGet (setLastModified host w modTime) k = headerGet w k := by
  unfold setLastModified
  split
  · exact headerGet_headerSet_ne _ _ _ _ hk
  · rfl

theorem setLastModified_status (host : Host) (w : ResponseWriter) (modTime : Nat) :
    (setLastModified host w modTime).status = w.status := by
  unfold setLastModified
  split <;> rfl

theorem setLastModified_body (host : Host) (w : ResponseWriter) (modTime : Nat) :
    (setLastModified host w modTime).body = w.body := by
  unfold setLastModified
  split <;> rfl

theorem checkPreconditions_plain (host : Host) (w : ResponseWriter) (r : Request)
    (modTime : Nat) (h : IsPlain r) :
    checkPreconditions host w r modTime = (w, false, []) := by
  obtain ⟨h1, h2, h3, h4, h5⟩ := h
  have c1 : checkIfMatch host w r = .condNone := by
    unfold checkIfMatch
    simp only [h1, if_true]
  have c2 : checkIfUnmodifiedSince host r modTime = .condNone := by
    unfold checkIfUnmodifiedSince
    simp only [h2, true_or, if_true]
  have c3 : checkIfNoneMatch host w r = .condNone := by
    unfold checkIfNoneMatch
    simp only [h3, if_true]
  have c4 : checkIfModifiedSince host r modTime = .condNone := by
    unfold checkIfModifiedSince
    split
    · rfl
    · simp only [h4, true_or, if_true]
  have c5 : rangeToServe host w r modTime = [] := by
    unfold rangeToServe
    simp only [h5, ne_eq, not_true_eq_false, false_and, if_false]
  unfold checkPreconditions
  simp only [c1, c2, if_true, c3, c4, c5]
  simp

theorem serveContent_plain (host : Host) (r : Request) (name : Str) (modTime : Nat)
    (img : File) (w : ResponseWriter) (size : Nat) (ct : Str)
    (h : IsPlain r) (hs : img.size = .ok size)
    (hct : headerGet w "Content-Type".toList = some ct) :
    headerGet (serveContent host r name modTime img w) "Content-Type".toList = some ct ∧
    (w.status = none → (serveContent host r name modTime img w).status = some 200) ∧
    (r.method ≠ "HEAD".toList →
      (serveContent host r name modTime img w).body = w.body ++ img.content.take size) ∧
    (r.method = "HEAD".toList → (serveContent host r name modTime img w).body = w.body) := by
  have hLM : "Content-Type".toList ≠ "Last-Modified".toList := by decide
  have hAR : "Content-Type".toList ≠ "Accept-Ranges".toList := by decide
  have hCL : "Content-Type".toList ≠ "Content-Length".toList := by decide
  have h1 : headerGet (setLastModified host w modTime) "Content-Type".toList = some ct := by
    rw [setLastModified_get host w modTime _ hLM]; exact hct
  have hsome : (headerGet (setLastModified host w modTime) "Content-Type".toList).isNone =
      false := by rw [h1]; rfl
  have heq : serveContent host r name modTime img w =
      if r.method ≠ "HEAD".toList then
        write (writeHeader
          (if (headerGet (headerSet (setLastModified host w modTime) "Accept-Ranges".toList
              "bytes".toList) "Content-Encoding".toList).getD [] = [] then
            headerSet (headerSet (setLastModified host w modTime) "Accept-Ranges".toList
              "bytes".toList) "Content-Length".toList (Nat.repr size).toList
          else headerSet (setLastModified host w modTime) "Accept-Ranges".toList
            "bytes".toList) 200) (img.content.take size)
      else
        writeHeader
          (if (headerGet (headerSet (setLastModified host w modTime) "Accept-Ranges".toList
              "bytes".toList) "Content-Encoding".toList).getD [] = [] then
            headerSet (headerSet (setLastModified host w modTime) "Accept-Ranges".toList
              "bytes".toList) "Content-Length".toList (Nat.repr size).toList
          else headerSet (setLastModified host w modTime) "Accept-Ranges".toList
            "bytes".toList) 200 := by
    unfold serveContent
    simp only [checkPreconditions_plain host _ r modTime h, hsome, Bool.false_eq_true,
      if_false, hs, if_true]
  have h3 : ∀ w3 : ResponseWriter, w3 =
      (if (headerGet (headerSet (setLastModified host w modTime) "Accept-Ranges".toList
          "bytes".toList) "Content-Encoding".toList).getD [] = [] then
        headerSet (headerSet (setLastModified host w modTime) "Accept-Ranges".toList
          "bytes".toList) "Content-Length".toList (Nat.repr size).toList
      else headerSet (setLastModified host w modTime) "Accept-Ranges".toList
        "bytes".toList) →
      headerGet w3 "Content-Type".toList = some ct ∧ w3.status = w.status ∧
        w3.body = w.body := by
    intro w3 hw3
    rw [hw3]
    split
    · refine ⟨?_, ?_, ?_⟩
      · rw [headerGet_headerSet_ne _ _ _ _ hCL, headerGet_headerSet_ne _ _ _ _ hAR]
        exact h1
      · exact setLastModified_status host w modTime
      · exact setLastModified_body host w modTime
    · refine ⟨?_, ?_, ?_⟩
      · rw [headerGet_headerSet_ne _ _ _ _ hAR]
        exact h1
      · exact setLastModified_status host w modTime
      · exact setLastModified_body host w modTime
  rw [heq]
  generalize (if (headerGet (headerSet (setLastModified host w modTime) "Accept-Ranges".toList
          "bytes".toList) "Content-Encoding".toList).getD [] = [] then
        headerSet (headerSet (setLastModified host w modTime) "Accept-Ranges".toList
          "bytes".toList) "Content-Length".toList (Nat.repr size).toList
      else headerSet (setLastModified host w modTime) "Accept-Ranges".toList
        "bytes".toList) = w3 at h3
  obtain ⟨g1, g2, g3⟩ := h3 w3 rfl
  have k1 : headerGet (writeHeader w3 200) "Content-Type".toList = some ct := by
    rw [headerGet_of_header _ w3 _ (writeHeader_header w3 200)]; exact g1
  refine ⟨?_, ?_, ?_, ?_⟩
  · split
    · rw [headerGet_of_header _ (writeHeader w3 200) _ (write_header _ _)]; exact k1
    · exact k1
  · intro hw
    have k2 : (writeHeader w3 200).status = some 200 :=
      writeHeader_status w3 200 (by rw [g2]; exact hw)
    split
    · exact write_status _ _ 200 k2
    · exact k2
  · intro hm
    rw [if_pos hm]
    simp only [write]
    rw [writeHeader_body, writeHeader_body, g3]
  · intro hm
    rw [if_neg (by simpa using hm), writeHeader_body, g3]

/-! ## The claims -/

/-- C2 as stated fails: the directory of "mixed" holds the symbolic link
link.gif and the named pipe pipe.jpeg, which are not regular files, and
`listAvailableImages` returns their names with those of the regular images. -/
theorem listing_includes_non_regular :
    mixedFS.osReadDir mixed.Directory = .ok mixedEntries ∧
    (⟨"link.gif".toList, .symlink⟩ : DirEntry) ∈ mixedEntries ∧
    (⟨"pipe.jpeg".toList, .namedPipe⟩ : DirEntry) ∈ mixedEntries ∧
    FileType.symlink ≠ FileType.regular ∧ FileType.namedPipe ≠ FileType.regular ∧
    (mixedEntries.filter (isRegularImage plainHost)).map DirEntry.name =
      ["A.PNG".toList, "locked.png".toList, "stale.png".toList] ∧
    listAvailableImages plainHost mixedFS mixed.Directory =
      .ok ["A.PNG".toList, "link.gif".toList, "locked.png".toList, "pipe.jpeg".toList,
        "stale.png".toList] ∧
    listAvailableImages plainHost mixedFS mixed.Directory ≠
      .ok ((mixedEntries.filter (isRegularImage plainHost)).map DirEntry.name) := by
  refine ⟨rfl, by decide, by decide, by decide, by decide, by decide, rfl, ?_⟩
  intro h
  have h2 : (Except.ok ["A.PNG".toList, "link.gif".toList, "locked.png".toList,
      "pipe.jpeg".toList, "stale.png".toList] : Except Str (List Str)) =
      .ok ((mixedEntries.filter (isRegularImage plainHost)).map DirEntry.name) := h
  injection h2 with h3
  revert h3
  decide

/-- C2, amended: `listAvailableImages` returns an error (and no list) when the
directory cannot be read; otherwise it returns, without error, exactly the
names of the entries that are not directories (regular files, and also symbolic
links, named pipes, sockets and devices) and whose lowercased extension is one
of .jpg, .jpeg, .png, .gif, each once and in directory order; in particular the
empty list, not an error, when the directory is empty or has no matching
entry. -/
theorem listAvailableImages_spec (host : Host) (fs : FS) (dir : Str) :
    (∀ err, fs.osReadDir dir = .error err →
      listAvailableImages host fs dir =
        .error ("reading directory ".toList ++ dir ++ ": ".toList ++ err)) ∧
    (∀ entries, fs.osReadDir dir = .ok entries →
      listAvailableImages host fs dir =
        .ok ((entries.filter (isListed host)).map DirEntry.name) ∧
      (entries = [] → listAvailableImages host fs dir = .ok []) ∧
      ((∀ e ∈ entries, isListed host e = false) →
        listAvailableImages host fs dir = .ok [])) := by
  refine ⟨?_, ?_⟩
  · intro err h
    simp [listAvailableImages, h]
  · intro entries h
    have hok := listAvailableImages_ok host fs dir entries h
    refine ⟨hok, ?_, ?_⟩
    · intro he
      rw [hok, he]; rfl
    · intro hall
      rw [hok]
      have : entries.filter (isListed host) = [] := by
        rw [List.filter_eq_nil_iff]
        intro e he
        simp [hall e he]
      rw [this]; rfl

/-- C1: for a request path that is the static prefix followed by a non-empty
remainder, if the base name of the remainder differs from the remainder the
response is 400 and no filesystem call is made; and whenever the handler opens
a file, the remainder is a single path component (no separator, not empty,
neither "." nor "..") and the opened path is the collection directory joined
with it, which lies directly under the cleaned collection directory. -/
theorem static_handler_no_traversal (host : Host) (fs : FS) (source : ImageSource)
    (r : Request) (w : ResponseWriter) (rem : Str)
    (hpath : r.path = source.StaticPrefix ++ rem) (hbare : r.path ≠ source.StaticPrefix) :
    (Base rem ≠ rem →
      createStaticFileHandler host fs source r w =
        ⟨httpError w "Bad Request: Invalid image name.".toList 400, []⟩ ∧
      (w.status = none →
        (createStaticFileHandler host fs source r w).resp.status = some 400)) ∧
    (∀ path, FsCall.openFile path ∈ (createStaticFileHandler host fs source r w).fsCalls →
      IsComponent rem ∧ path = Join source.Directory rem ∧
      path = childPath (Clean source.Directory) rem) := by
  have hrem : rem ≠ [] := by
    intro h0; apply hbare; rw [hpath, h0]; simp
  have htrim : TrimPrefix r.path source.StaticPrefix = rem := by
    rw [hpath]; exact TrimPrefix_append _ _
  refine ⟨?_, ?_⟩
  · intro hb
    have heq : createStaticFileHandler host fs source r w =
        ⟨httpError w "Bad Request: Invalid image name.".toList 400, []⟩ := by
      simp [createStaticFileHandler, hbare, htrim, hrem, hb]
    refine ⟨heq, ?_⟩
    intro hw
    rw [heq]
    exact httpError_status w _ 400 hw
  · intro path hmem
    unfold createStaticFileHandler at hmem
    simp only [hbare, if_false, htrim, hrem] at hmem
    by_cases hb : Base rem = rem
    · simp only [hb, ne_eq, not_true_eq_false, if_false] at hmem
      cases hl : imageExtensions.lookup (ToLower host (Ext rem)) with
      | none => simp [hl] at hmem
      | some ct =>
        have hcomp := component_of_checks host rem ct hb hl
        have hpathEq : path = Join source.Directory rem → path = Join source.Directory rem ∧
            path = childPath (Clean source.Directory) rem :=
          fun hE => ⟨hE, by rw [hE]; exact Join_component _ _ hcomp⟩
        refine ⟨hcomp, hpathEq ?_⟩
        simp only [hl] at hmem
        cases ho : fs.osOpen (Join source.Directory rem) with
        | error e =>
          cases e with
          | notExist => simpa [ho] using hmem
          | other msg => simpa [ho] using hmem
        | ok img =>
          cases hs : img.stat with
          | error e => simpa [ho, hs] using hmem
          | ok info => simpa [ho, hs] using hmem
    · simp [hb] at hmem

/-- C3: the random-redirect handler responds 500 when listing the directory
fails and 404 when the listing is empty; otherwise, for every index below the
number k of listed images that `rand.Intn` draws, it redirects with 302 to
StaticPrefix followed by the image at that index, so every target is the prefix
followed by a listed filename, and every listed filename is the target for some
index. -/
theorem random_redirect_spec (host : Host) (fs : FS) (source : ImageSource) (r : Request)
    (w : ResponseWriter) :
    (∀ msg, listAvailableImages host fs source.Directory = .error msg → ∀ intn,
      (createRandomImageRedirectHandler host fs intn source r w).resp =
        httpError w "Internal Server Error: Could not list images.".toList 500 ∧
      (w.status = none →
        (createRandomImageRedirectHandler host fs intn source r w).resp.status = some 500)) ∧
    (listAvailableImages host fs source.Directory = .ok [] → ∀ intn,
      (createRandomImageRedirectHandler host fs intn source r w).resp =
        httpError w "No images found.".toList 404 ∧
      (w.status = none →
        (createRandomImageRedirectHandler host fs intn source r w).resp.status = some 404)) ∧
    (∀ images, listAvailableImages host fs source.Directory = .ok images → images ≠ [] →
      (∀ intn idx, ∀ h : idx < images.length, intn images.length = idx →
        (createRandomImageRedirectHandler host fs intn source r w).resp =
          httpRedirect host w r (source.StaticPrefix ++ images.get ⟨idx, h⟩) 302 ∧
        headerGet (createRandomImageRedirectHandler host fs intn source r w).resp
          "Location".toList =
            some (host.redirectURL r.path (source.StaticPrefix ++ images.get ⟨idx, h⟩)) ∧
        (w.status = none →
          (createRandomImageRedirectHandler host fs intn source r w).resp.status = some 302)) ∧
      (∀ name ∈ images, ∃ idx, idx < images.length ∧ ∀ intn, intn images.length = idx →
        (createRandomImageRedirectHandler host fs intn source r w).resp =
          httpRedirect host w r (source.StaticPrefix ++ name) 302)) := by
  refine ⟨?_, ?_, ?_⟩
  · intro msg hlist intn
    have heq : (createRandomImageRedirectHandler host fs intn source r w).resp =
        httpError w "Internal Server Error: Could not list images.".toList 500 := by
      simp [createRandomImageRedirectHandler, hlist]
    exact ⟨heq, fun hw => by rw [heq]; exact httpError_status w _ 500 hw⟩
  · intro hlist intn
    have heq : (createRandomImageRedirectHandler host fs intn source r w).resp =
        httpError w "No images found.".toList 404 := by
      simp [createRandomImageRedirectHandler, hlist]
    exact ⟨heq, fun hw => by rw [heq]; exact httpError_status w _ 404 hw⟩
  · intro images hlist _
    refine ⟨?_, ?_⟩
    · intro intn idx h hidx
      have hget : images.get? (intn images.length) = some (images.get ⟨idx, h⟩) := by
        rw [hidx]; exact List.get?_eq_get h
      have heq := random_handler_redirect host fs intn source r w images _ hlist hget
      rw [heq]
      exact ⟨rfl, httpRedirect_location host w r _ 302,
        fun hw => httpRedirect_status host w r _ 302 hw⟩
    · intro name hmem
      obtain ⟨i, hi⟩ := List.get_of_mem hmem
      refine ⟨i.val, i.isLt, ?_⟩
      intro intn hidx
      have hget : images.get? (intn images.length) = some name := by
        rw [hidx, List.get?_eq_get i.isLt]
        exact congrArg some hi
      rw [random_handler_redirect host fs intn source r w images name hlist hget]

/-- C7: when the requested path equals the bare static prefix and the listing
succeeds, the static handler answers with the HTML index: for a non-empty
listing the template is executed on page data holding exactly one entry per
listed filename, in the same order, each with the static prefix (so each links
to StaticPrefix followed by the filename); for an empty listing the page has no
entry. -/
theorem static_index_spec (host : Host) (fs : FS) (source : ImageSource) (r : Request)
    (w : ResponseWriter) (images : List Str)
    (hpath : r.path = source.StaticPrefix)
    (hlist : listAvailableImages host fs source.Directory = .ok images) :
    (images ≠ [] →
      createStaticFileHandler host fs source r w =
        ⟨write (headerSet w "Content-Type".toList "text/html; charset=utf-8".toList)
          (host.execIndexTemplate (indexPageData source images)),
          [.readDir source.Directory]⟩) ∧
    (images = [] →
      createStaticFileHandler host fs source r w =
        ⟨fprintln (headerSet w "Content-Type".toList "text/html; charset=utf-8".toList)
          "<h1>No images available</h1>".toList, [.readDir source.Directory]⟩) ∧
    (w.status = none →
      (createStaticFileHandler host fs source r w).resp.status = some 200) ∧
    headerGet (createStaticFileHandler host fs source r w).resp "Content-Type".toList =
      some "text/html; charset=utf-8".toList ∧
    (indexPageData source images).map IndexPageData.FileName = images ∧
    (indexPageData source images).map (fun d => d.StaticPath ++ d.FileName) =
      images.map (fun name => source.StaticPrefix ++ name) := by
  have h1 : images ≠ [] →
      createStaticFileHandler host fs source r w =
        ⟨write (headerSet w "Content-Type".toList "text/html; charset=utf-8".toList)
          (host.execIndexTemplate (indexPageData source images)),
          [.readDir source.Directory]⟩ := by
    intro hne
    have hlen : images.length ≠ 0 := fun h0 => hne (List.length_eq_zero.mp h0)
    unfold createStaticFileHandler createStaticIndexHandler
    simp only [hpath, if_true, hlist, hlen, if_false]
    rw [pageData_fold]
    simp
  have h2 : images = [] →
      createStaticFileHandler host fs source r w =
        ⟨fprintln (headerSet w "Content-Type".toList "text/html; charset=utf-8".toList)
          "<h1>No images available</h1>".toList, [.readDir source.Directory]⟩ := by
    intro he
    subst he
    unfold createStaticFileHandler createStaticIndexHandler
    simp [hpath, hlist]
  refine ⟨h1, h2, ?_, ?_, ?_, ?_⟩
  · intro hw
    by_cases he : images = []
    · rw [h2 he]
      exact write_status_fresh _ _ (by simp [headerSet, hw])
    · rw [h1 he]
      exact write_status_fresh _ _ (by simp [headerSet, hw])
  · by_cases he : images = []
    · rw [h2 he]
      unfold fprintln headerGet
      rw [write_header]
      exact headerGet_headerSet _ _ _
    · rw [h1 he]
      unfold headerGet
      rw [write_header]
      exact headerGet_headerSet _ _ _
  · simp [indexPageData, Function.comp_def]
  · simp [indexPageData, Function.comp_def]

/-- C8: for every request and every wrapped handler the CORS middleware sets the
three Access-Control headers on the response writer (leaving the other headers,
the status and the body as they were); for OPTIONS it then responds 200 without
invoking the wrapped handler, and for every other method its outcome is that of
one invocation of the wrapped handler on that writer. -/
theorem cors_spec (r : Request) (w : ResponseWriter) :
    ∃ w2 : ResponseWriter,
      (∀ kv ∈ corsHeaders, headerGet w2 kv.1 = some kv.2) ∧
      (∀ k, k ∉ corsHeaders.map Prod.fst → headerGet w2 k = headerGet w k) ∧
      w2.status = w.status ∧ w2.body = w.body ∧
      (r.method = "OPTIONS".toList → ∀ next : Handler,
        corsMiddleware next r w = ⟨writeHeader w2 200, []⟩ ∧
        (w.status = none → (corsMiddleware next r w).resp.status = some 200) ∧
        (corsMiddleware next r w).resp.body = w.body ∧
        (∀ kv ∈ corsHeaders, headerGet (corsMiddleware next r w).resp kv.1 = some kv.2)) ∧
      (r.method ≠ "OPTIONS".toList → ∀ next : Handler,
        corsMiddleware next r w = next r w2) := by
  have hAO_AM : "Access-Control-Allow-Origin".toList ≠ "Access-Control-Allow-Methods".toList := by
    decide
  have hAO_AH : "Access-Control-Allow-Origin".toList ≠ "Access-Control-Allow-Headers".toList := by
    decide
  have hAM_AH : "Access-Control-Allow-Methods".toList ≠ "Access-Control-Allow-Headers".toList := by
    decide
  have hget : ∀ kv ∈ corsHeaders,
      headerGet (headerSet (headerSet (headerSet w
        "Access-Control-Allow-Origin".toList "*".toList)
        "Access-Control-Allow-Methods".toList "GET, POST, OPTIONS".toList)
        "Access-Control-Allow-Headers".toList "Content-Type, Authorization".toList) kv.1 =
        some kv.2 := by
    intro kv hkv
    simp only [corsHeaders, List.mem_cons, List.mem_singleton, List.not_mem_nil, or_false] at hkv
    rcases hkv with h | h | h
    · subst h
      rw [headerGet_headerSet_ne _ _ _ _ hAO_AH, headerGet_headerSet_ne _ _ _ _ hAO_AM]
      exact headerGet_headerSet _ _ _
    · subst h
      rw [headerGet_headerSet_ne _ _ _ _ hAM_AH]
      exact headerGet_headerSet _ _ _
    · subst h
      exact headerGet_headerSet _ _ _
  refine ⟨_, hget, ?_, rfl, rfl, ?_, ?_⟩
  · intro k hk
    simp only [corsHeaders, List.map, List.mem_cons, List.mem_singleton, List.not_mem_nil,
      or_false, not_or] at hk
    rw [headerGet_headerSet_ne _ _ _ _ hk.2.2, headerGet_headerSet_ne _ _ _ _ hk.2.1,
      headerGet_headerSet_ne _ _ _ _ hk.1]
  · intro hm next
    have heq : corsMiddleware next r w = ⟨writeHeader (headerSet (headerSet (headerSet w
        "Access-Control-Allow-Origin".toList "*".toList)
        "Access-Control-Allow-Methods".toList "GET, POST, OPTIONS".toList)
        "Access-Control-Allow-Headers".toList "Content-Type, Authorization".toList) 200, []⟩ := by
      simp [corsMiddleware, hm]
    refine ⟨heq, ?_, ?_, ?_⟩
    · intro hw
      rw [heq]
      exact writeHeader_status _ 200 (by simp [headerSet, hw])
    · rw [heq]
      simp only [writeHeader]
      split <;> rfl
    · intro kv hkv
      rw [heq]
      have := hget kv hkv
      simp only [writeHeader]
      split
      · exact this
      · simpa [headerGet] using this
  · intro hm next
    unfold corsMiddleware
    simp only [hm, if_false]

/-- C9: in the compiled-in registry every configured (non-empty) static prefix,
random path and viewer path of a collection differs from every configured route
path of every other collection and from the root route "/"; whatever the order
in which `main` visits the collections, no pattern is registered twice. -/
theorem registry_routes_disjoint :
    (∀ s1 ∈ imageSourceValues, ∀ s2 ∈ imageSourceValues, s1 ≠ s2 →
      ∀ p ∈ routePaths s1, ∀ q ∈ routePaths s2, p ≠ q) ∧
    (∀ s ∈ imageSourceValues, ∀ p ∈ routePaths s, p ≠ "/".toList) ∧
    (∀ order : List ImageSource, order.Perm imageSourceValues →
      ((registerRoutes order).map Prod.fst).Nodup) := by
  refine ⟨by decide, by decide, ?_⟩
  intro order hperm
  rw [registerRoutes_patterns]
  have hp : (order.flatMap routePaths ++ ["/".toList]).Perm
      (imageSourceValues.flatMap routePaths ++ ["/".toList]) :=
    (List.Perm.flatMap_right routePaths hperm).append_right _
  rw [hp.nodup_iff]
  decide

/-- C10: the root handler responds 404 for every request path other than "/";
for "/" it responds 200 with the HTML page made of one item per collection
visited, each item holding the links configured for that collection, namely a
Random Image, Image Index or Web Viewer link exactly for those of RandomPath,
StaticPrefix and WebPath that are non-empty; the range visits every collection
of the registry once, and public_http gets only an Image Index link. -/
theorem root_handler_spec (order : List ImageSource) (r : Request) (w : ResponseWriter)
    (hperm : order.Perm imageSourceValues) (hw : w.status = none) :
    (r.path ≠ "/".toList →
      rootHandler order r w = ⟨httpNotFound w, []⟩ ∧
      (rootHandler order r w).resp.status = some 404) ∧
    (r.path = "/".toList →
      (rootHandler order r w).resp.status = some 200 ∧
      (rootHandler order r w).resp.body = w.body ++ rootPageHtml order ∧
      headerGet (rootHandler order r w).resp "Content-Type".toList =
        some "text/html; charset=utf-8".toList ∧
      (rootHandler order r w).fsCalls = []) ∧
    (order.map itemHtml).length = imageSources.length ∧
    (∀ s ∈ imageSourceValues, order.count s = 1) ∧
    (∀ s : ImageSource, ∀ l : Str × Str, l ∈ configuredLinks s ↔
      (l = (s.RandomPath, "Random Image".toList) ∧ s.RandomPath ≠ []) ∨
      (l = (s.StaticPrefix, "Image Index".toList) ∧ s.StaticPrefix ≠ []) ∨
      (l = (s.WebPath, "Web Viewer".toList) ∧ s.WebPath ≠ [])) ∧
    (∀ kv ∈ imageSources, kv.1 = "public_http".toList →
      configuredLinks kv.2 = [("/public/".toList, "Image Index".toList)]) := by
  refine ⟨?_, ?_, ?_, ?_, ?_, by decide⟩
  · intro hp
    have heq : rootHandler order r w = ⟨httpNotFound w, []⟩ := by
      unfold rootHandler
      simp only [hp, ne_eq, not_false_eq_true, if_true]
    exact ⟨heq, by rw [heq]; exact httpNotFound_status w hw⟩
  · intro hp
    have h200 : (fprintln (fprintln (fprintln
        (headerSet w "Content-Type".toList "text/html; charset=utf-8".toList)
        "<html><head><title>Image Collections</title></head><body>".toList)
        "<h1>Available Image Collections</h1>".toList) "<ul>".toList).status = some 200 := by
      simp [fprintln, write, writeHeader, headerSet, hw]
    have heq : rootHandler order r w =
        ⟨fprintln { (fprintln (fprintln (fprintln
          (headerSet w "Content-Type".toList "text/html; charset=utf-8".toList)
          "<html><head><title>Image Collections</title></head><body>".toList)
          "<h1>Available Image Collections</h1>".toList) "<ul>".toList) with
          body := (fprintln (fprintln (fprintln
            (headerSet w "Content-Type".toList "text/html; charset=utf-8".toList)
            "<html><head><title>Image Collections</title></head><body>".toList)
            "<h1>Available Image Collections</h1>".toList) "<ul>".toList).body ++
            (order.map itemHtml).flatten } "</ul></body></html>".toList, []⟩ := by
      unfold rootHandler
      simp only [hp, ne_eq, not_true_eq_false, if_false]
      rw [root_items_fold order _ h200]
    rw [heq]
    refine ⟨?_, ?_, ?_, rfl⟩
    · simp [fprintln, write, writeHeader, headerSet, hw]
    · simp [fprintln, write, writeHeader, headerSet, hw, rootPageHtml]
    · simp [fprintln, write, writeHeader, headerSet, hw, headerGet, List.lookup]
  · rw [List.length_map, hperm.length_eq]
    rfl
  · intro s hs
    rw [hperm.count_eq]
    revert s
    decide
  · intro s l
    obtain ⟨a, b⟩ := l
    by_cases h1 : s.RandomPath = [] <;> by_cases h2 : s.StaticPrefix = [] <;>
      by_cases h3 : s.WebPath = [] <;>
      simp [configuredLinks, List.filter_cons, h1, h2, h3]

/-- C4 as stated fails: the path "/teto/static/a/b.txt" is the static prefix
followed by a non-empty remainder whose lowercased extension ".txt" is not
supported, and the response is 400, not 404. -/
theorem unsupported_extension_traversal_400 :
    (getRequest "/teto/static/a/b.txt".toList).path = teto.StaticPrefix ++ "a/b.txt".toList ∧
    "a/b.txt".toList ≠ [] ∧
    ToLower plainHost (Ext "a/b.txt".toList) = ".txt".toList ∧
    ToLower plainHost (Ext "a/b.txt".toList) ∉ supportedExtensions ∧
    (createStaticFileHandler plainHost sampleFS teto
      (getRequest "/teto/static/a/b.txt".toList) freshWriter).resp.status = some 400 ∧
    (createStaticFileHandler plainHost sampleFS teto
      (getRequest "/teto/static/a/b.txt".toList) freshWriter).resp.status ≠ some 404 := by
  decide

/-- C4, amended: for a request path that is the static prefix followed by a
non-empty remainder that passes the traversal check (its base name is the
remainder itself), if the lowercased extension of the remainder is not
supported then the response is 404 and no file is opened. -/
theorem unsupported_extension_404 (host : Host) (fs : FS) (source : ImageSource)
    (r : Request) (w : ResponseWriter) (rem : Str)
    (hpath : r.path = source.StaticPrefix ++ rem) (hrem : rem ≠ [])
    (hbase : Base rem = rem)
    (hext : ToLower host (Ext rem) ∉ supportedExtensions) :
    createStaticFileHandler host fs source r w = ⟨httpNotFound w, []⟩ ∧
    (w.status = none →
      (createStaticFileHandler host fs source r w).resp.status = some 404) := by
  have hl : imageExtensions.lookup (ToLower host (Ext rem)) = none := by
    cases h : imageExtensions.lookup (ToLower host (Ext rem)) with
    | none => rfl
    | some ct => exact absurd ((lookup_isSome_iff _).mp (by simp [h])) hext
  have heq := static_file_unsupported host fs source r w rem hpath hrem hbase hl
  exact ⟨heq, fun hw => by rw [heq]; exact httpNotFound_status w hw⟩

set_option maxRecDepth 100000

/-- C5 as stated fails, on the directory of "mixed": notes.txt exists and the
response is 404; locked.png exists and the response is 500; a name of 304 bytes
does not exist and the response is 500, not 404; A.PNG exists and opens, and a
request for it with If-None-Match: * gets 304 without a Content-Type, one with
a Range header in another unit gets 416 as plain text; the named pipe and the
image on a stale mount exist and the response is 500. -/
theorem existing_file_not_served :
    (IsComponent "notes.txt".toList ∧
      mixedFS.fileExists (Join mixed.Directory "notes.txt".toList) = true ∧
      (createStaticFileHandler plainHost mixedFS mixed notesRequest freshWriter).resp.status =
        some 404) ∧
    (IsComponent "locked.png".toList ∧
      mixedFS.fileExists (Join mixed.Directory "locked.png".toList) = true ∧
      (createStaticFileHandler plainHost mixedFS mixed lockedRequest freshWriter).resp.status =
        some 500) ∧
    (IsComponent longName ∧
      mixedFS.fileExists (Join mixed.Directory longName) = false ∧
      (createStaticFileHandler plainHost mixedFS mixed longNameRequest
        freshWriter).resp.status = some 500) ∧
    (IsComponent "A.PNG".toList ∧
      mixedFS.fileExists (Join mixed.Directory "A.PNG".toList) = true ∧
      (createStaticFileHandler plainHost mixedFS mixed conditionalRequest
        freshWriter).resp.status = some 304 ∧
      headerGet (createStaticFileHandler plainHost mixedFS mixed conditionalRequest
        freshWriter).resp "Content-Type".toList = none ∧
      (createStaticFileHandler plainHost mixedFS mixed rangeRequest freshWriter).resp.status =
        some 416 ∧
      headerGet (createStaticFileHandler plainHost mixedFS mixed rangeRequest
        freshWriter).resp "Content-Type".toList = some "text/plain; charset=utf-8".toList) ∧
    (IsComponent "pipe.jpeg".toList ∧
      mixedFS.fileExists (Join mixed.Directory "pipe.jpeg".toList) = true ∧
      (createStaticFileHandler plainHost mixedFS mixed pipeRequest freshWriter).resp.status =
        some 500) ∧
    (IsComponent "stale.png".toList ∧
      mixedFS.fileExists (Join mixed.Directory "stale.png".toList) = true ∧
      (createStaticFileHandler plainHost mixedFS mixed staleRequest freshWriter).resp.status =
        some 500) := by
  refine ⟨by decide, by decide, by decide, by decide, by decide, by decide⟩

/-- C5, amended: for a single-component filename under the static prefix, if
the lowercased extension is not one of .jpg, .jpeg, .png, .gif the response is
404 whether or not the file exists; if `os.Open` reports that the file does not
exist the response is 404; if the extension is supported and `os.Open` fails
for another reason, or the info of the opened file cannot be read, the
response is 500; if the extension is supported and the file opens and its info
is read, the handler sets Content-Type to the type mapped from the extension
compared case-insensitively (.jpg and .jpeg give image/jpeg, .png gives
image/png, .gif gives image/gif) and serves the file through
`http.ServeContent`, and for a request without conditional header and without
Range header, on a file whose size can be determined, the response is 200 with
that Content-Type and, unless the method is HEAD, the bytes of the file. -/
theorem static_file_content_type (host : Host) (fs : FS) (source : ImageSource)
    (r : Request) (w : ResponseWriter) (name : Str)
    (hpath : r.path = source.StaticPrefix ++ name) (hname : IsComponent name) :
    (lowercased host (Ext name) ∉ supportedExtensions →
      createStaticFileHandler host fs source r w = ⟨httpNotFound w, []⟩ ∧
      (w.status = none →
        (createStaticFileHandler host fs source r w).resp.status = some 404)) ∧
    (fs.osOpen (Join source.Directory name) = .error .notExist →
      (createStaticFileHandler host fs source r w).resp = httpNotFound w ∧
      (w.status = none →
        (createStaticFileHandler host fs source r w).resp.status = some 404)) ∧
    (∀ msg, lowercased host (Ext name) ∈ supportedExtensions →
      fs.osOpen (Join source.Directory name) = .error (.other msg) →
      (createStaticFileHandler host fs source r w).resp =
        httpError w "Internal Server Error: Could not open image file.".toList 500 ∧
      (w.status = none →
        (createStaticFileHandler host fs source r w).resp.status = some 500)) ∧
    (∀ img err, lowercased host (Ext name) ∈ supportedExtensions →
      fs.osOpen (Join source.Directory name) = .ok img → img.stat = .error err →
      (createStaticFileHandler host fs source r w).resp =
        httpError w "Internal Server Error: Could not get image file info.".toList 500 ∧
      (w.status = none →
        (createStaticFileHandler host fs source r w).resp.status = some 500)) ∧
    (∀ img info, lowercased host (Ext name) ∈ supportedExtensions →
      fs.osOpen (Join source.Directory name) = .ok img → img.stat = .ok info →
      ∃ ct,
        ((lowercased host (Ext name) = ".jpg".toList ∧ ct = "image/jpeg".toList) ∨
          (lowercased host (Ext name) = ".jpeg".toList ∧ ct = "image/jpeg".toList) ∨
          (lowercased host (Ext name) = ".png".toList ∧ ct = "image/png".toList) ∨
          (lowercased host (Ext name) = ".gif".toList ∧ ct = "image/gif".toList)) ∧
        createStaticFileHandler host fs source r w =
          ⟨serveContent host r name info.modTime img
            (headerSet w "Content-Type".toList ct),
            [.openFile (Join source.Directory name)]⟩ ∧
        (∀ size, IsPlain r → img.size = .ok size →
          headerGet (createStaticFileHandler host fs source r w).resp
            "Content-Type".toList = some ct ∧
          (w.status = none →
            (createStaticFileHandler host fs source r w).resp.status = some 200) ∧
          (r.method ≠ "HEAD".toList →
            (createStaticFileHandler host fs source r w).resp.body =
              w.body ++ img.content.take size))) := by
  have hb := Base_of_component name hname
  have hlow := ToLower_eq_lowercased host (Ext name)
  have hunsup : imageExtensions.lookup (ToLower host (Ext name)) = none →
      createStaticFileHandler host fs source r w = ⟨httpNotFound w, []⟩ :=
    static_file_unsupported host fs source r w name hpath hname.1 hb
  have hnone_of : lowercased host (Ext name) ∉ supportedExtensions →
      imageExtensions.lookup (ToLower host (Ext name)) = none := by
    intro hext
    cases h : imageExtensions.lookup (ToLower host (Ext name)) with
    | none => rfl
    | some ct =>
      exact absurd (hlow ▸ (lookup_isSome_iff _).mp (by simp [h])) hext
  have hsome_of : lowercased host (Ext name) ∈ supportedExtensions →
      ∃ ct, imageExtensions.lookup (ToLower host (Ext name)) = some ct := by
    intro hext
    exact Option.isSome_iff_exists.mp ((lookup_isSome_iff _).mpr (hlow ▸ hext))
  refine ⟨?_, ?_, ?_, ?_, ?_⟩
  · intro hext
    have heq := hunsup (hnone_of hext)
    exact ⟨heq, fun hw => by rw [heq]; exact httpNotFound_status w hw⟩
  · intro hopen
    have heq : (createStaticFileHandler host fs source r w).resp = httpNotFound w := by
      cases hl : imageExtensions.lookup (ToLower host (Ext name)) with
      | none => rw [hunsup hl]
      | some ct =>
        rw [static_file_outcome host fs source r w name ct hpath hname.1 hb hl, hopen]
    exact ⟨heq, fun hw => by rw [heq]; exact httpNotFound_status w hw⟩
  · intro msg hext hopen
    obtain ⟨ct, hl⟩ := hsome_of hext
    have heq : (createStaticFileHandler host fs source r w).resp =
        httpError w "Internal Server Error: Could not open image file.".toList 500 := by
      rw [static_file_outcome host fs source r w name ct hpath hname.1 hb hl, hopen]
    exact ⟨heq, fun hw => by rw [heq]; exact httpError_status w _ 500 hw⟩
  · intro img err hext hopen hstat
    obtain ⟨ct, hl⟩ := hsome_of hext
    have heq : (createStaticFileHandler host fs source r w).resp =
        httpError w "Internal Server Error: Could not get image file info.".toList 500 := by
      rw [static_file_outcome host fs source r w name ct hpath hname.1 hb hl, hopen]
      simp only [hstat]
    exact ⟨heq, fun hw => by rw [heq]; exact httpError_status w _ 500 hw⟩
  · intro img info hext hopen hstat
    obtain ⟨ct, hl⟩ := hsome_of hext
    have heq : createStaticFileHandler host fs source r w =
        ⟨serveContent host r name info.modTime img (headerSet w "Content-Type".toList ct),
          [.openFile (Join source.Directory name)]⟩ := by
      rw [static_file_outcome host fs source r w name ct hpath hname.1 hb hl, hopen]
      simp only [hstat]
    refine ⟨ct, ?_, heq, ?_⟩
    · rw [← hlow]
      exact (lookup_imageExtensions _ ct).mp hl
    · intro size hplain hsize
      rw [heq]
      have hp := serveContent_plain host r name info.modTime img
        (headerSet w "Content-Type".toList ct) size ct hplain hsize
        (headerGet_headerSet _ _ _)
      exact ⟨hp.1, fun hw => hp.2.1 hw, fun hm => hp.2.2.1 hm⟩

/-- C6: for every collection and every directory listing (entry names hold no
separator), each filename returned by `listAvailableImages` is a valid redirect
target: the request for StaticPrefix followed by the filename is not the bare
prefix (not routed to the index), passes the traversal check and the extension
check, and makes the static handler open exactly the collection directory
joined with that filename; every redirect of the random handler goes to such a
filename; and no name with an unsupported extension is listed. -/
theorem listed_is_valid_target (host : Host) (fs : FS) (source : ImageSource)
    (entries : List DirEntry) (images : List Str)
    (hread : fs.osReadDir source.Directory = .ok entries)
    (hwf : ∀ e ∈ entries, '/' ∉ e.name)
    (hlist : listAvailableImages host fs source.Directory = .ok images) :
    (∀ name ∈ images, ∀ (r : Request) (w : ResponseWriter),
      r.path = source.StaticPrefix ++ name →
      r.path ≠ source.StaticPrefix ∧
      TrimPrefix r.path source.StaticPrefix = name ∧
      Base name = name ∧
      (∃ ct, imageExtensions.lookup (ToLower host (Ext name)) = some ct) ∧
      createStaticFileHandler host fs source r w ≠
        ⟨httpError w "Bad Request: Invalid image name.".toList 400, []⟩ ∧
      (createStaticFileHandler host fs source r w).fsCalls =
        [.openFile (Join source.Directory name)]) ∧
    (∀ (intn : Nat → Nat) (r : Request) (w : ResponseWriter),
      intn images.length < images.length →
      ∃ name ∈ images, ToLower host (Ext name) ∈ supportedExtensions ∧
        (createRandomImageRedirectHandler host fs intn source r w).resp =
          httpRedirect host w r (source.StaticPrefix ++ name) 302) ∧
    (∀ name, ToLower host (Ext name) ∉ supportedExtensions → name ∉ images) := by
  have hsup : ∀ name ∈ images, ToLower host (Ext name) ∈ supportedExtensions := by
    intro name hname
    obtain ⟨e, _, _, _, h⟩ := mem_listed host fs _ entries images name hread hlist hname
    exact h
  refine ⟨?_, ?_, ?_⟩
  · intro name hname r w hpath
    obtain ⟨e, he, hen, _, hext⟩ :=
      mem_listed host fs _ entries images name hread hlist hname
    have hsome := (lookup_isSome_iff _).mpr hext
    obtain ⟨ct, hl⟩ := Option.isSome_iff_exists.mp hsome
    have hlen := supported_length host name ct hl
    have hne : name ≠ [] := by
      intro h0; rw [h0] at hlen; simp at hlen
    have hsep : '/' ∉ name := hen ▸ hwf e he
    have hb : Base name = name := Base_of_noSep name hne hsep
    have hcalls : (createStaticFileHandler host fs source r w).fsCalls =
        [.openFile (Join source.Directory name)] := by
      rw [static_file_outcome host fs source r w name ct hpath hne hb hl]
      cases ho : fs.osOpen (Join source.Directory name) with
      | error e =>
        cases e with
        | notExist => rfl
        | other msg => rfl
      | ok img =>
        cases hs : img.stat with
        | error e => simp only [hs]
        | ok info => simp only [hs]
    refine ⟨by rw [hpath]; simpa using hne, by rw [hpath]; exact TrimPrefix_append _ _, hb,
      ⟨ct, hl⟩, ?_, hcalls⟩
    intro h400
    rw [h400] at hcalls
    simp at hcalls
  · intro intn r w hlt
    refine ⟨images.get ⟨intn images.length, hlt⟩, List.get_mem _ _ _,
      hsup _ (List.get_mem _ _ _), ?_⟩
    rw [random_handler_redirect host fs intn source r w images _ hlist
      (List.get?_eq_get hlt)]
  · intro name hext hmem
    exact hext (hsup name hmem)

/-! ## The theorems at concrete inputs -/

theorem listAvailableImages_spec_witness :
    mixedFS.osReadDir mixed.Directory = .ok mixedEntries ∧
    listAvailableImages plainHost mixedFS mixed.Directory =
      .ok ((mixedEntries.filter (isListed plainHost)).map DirEntry.name) ∧
    (mixedEntries.filter (isListed plainHost)).map DirEntry.name =
      ["A.PNG".toList, "link.gif".toList, "locked.png".toList, "pipe.jpeg".toList,
        "stale.png".toList] ∧
    isListed plainHost ⟨"A.PNG".toList, .regular⟩ = true ∧
    isListed plainHost ⟨"album.jpg".toList, .dir⟩ = false ∧
    isListed plainHost ⟨"notes.txt".toList, .regular⟩ = false ∧
    listAvailableImages plainHost sampleFS teto.Directory =
      .ok ["a.png".toList, "b.jpg".toList] ∧
    listAvailableImages plainHost mixedFS "/nowhere".toList =
      .error "reading directory /nowhere: no such file or directory".toList :=
  ⟨rfl,
    ((listAvailableImages_spec plainHost mixedFS mixed.Directory).2 _ rfl).1,
    by decide, by decide, by decide, by decide,
    ((listAvailableImages_spec plainHost sampleFS teto.Directory).2 _ rfl).1,
    (listAvailableImages_spec plainHost mixedFS "/nowhere".toList).1 _ rfl⟩

theorem static_handler_no_traversal_witness :
    traversalRequest.path = teto.StaticPrefix ++ "../../etc/passwd".toList ∧
    traversalRequest.path ≠ teto.StaticPrefix ∧
    Base "../../etc/passwd".toList ≠ "../../etc/passwd".toList ∧
    createStaticFileHandler plainHost sampleFS teto traversalRequest freshWriter =
      ⟨httpError freshWriter "Bad Request: Invalid image name.".toList 400, []⟩ ∧
    (createStaticFileHandler plainHost sampleFS teto traversalRequest freshWriter).resp.status =
      some 400 ∧
    FsCall.openFile (teto.Directory ++ "/a.png".toList) ∈
      (createStaticFileHandler plainHost sampleFS teto imageRequest freshWriter).fsCalls ∧
    teto.Directory ++ "/a.png".toList = childPath (Clean teto.Directory) "a.png".toList :=
  ⟨by decide, by decide, by decide,
    ((static_handler_no_traversal plainHost sampleFS teto traversalRequest freshWriter
      "../../etc/passwd".toList (by decide) (by decide)).1 (by decide)).1,
    ((static_handler_no_traversal plainHost sampleFS teto traversalRequest freshWriter
      "../../etc/passwd".toList (by decide) (by decide)).1 (by decide)).2 rfl,
    by decide,
    ((static_handler_no_traversal plainHost sampleFS teto imageRequest freshWriter
      "a.png".toList (by decide) (by decide)).2 _ (by decide)).2.2⟩

theorem random_redirect_spec_witness :
    listAvailableImages plainHost sampleFS teto.Directory =
      .ok ["a.png".toList, "b.jpg".toList] ∧
    (createRandomImageRedirectHandler plainHost sampleFS (fun _ => 1) teto randomRequest
      freshWriter).resp.status = some 302 ∧
    headerGet (createRandomImageRedirectHandler plainHost sampleFS (fun _ => 1) teto
      randomRequest freshWriter).resp "Location".toList = some "/teto/static/b.jpg".toList ∧
    headerGet (createRandomImageRedirectHandler plainHost sampleFS (fun _ => 0) teto
      randomRequest freshWriter).resp "Location".toList = some "/teto/static/a.png".toList :=
  ⟨rfl,
    ((((random_redirect_spec plainHost sampleFS teto randomRequest freshWriter).2.2
      ["a.png".toList, "b.jpg".toList] rfl (by decide)).1 (fun _ => 1) 1 (by decide) rfl).2.2
      rfl),
    (((random_redirect_spec plainHost sampleFS teto randomRequest freshWriter).2.2
      ["a.png".toList, "b.jpg".toList] rfl (by decide)).1 (fun _ => 1) 1 (by decide) rfl).2.1,
    (((random_redirect_spec plainHost sampleFS teto randomRequest freshWriter).2.2
      ["a.png".toList, "b.jpg".toList] rfl (by decide)).1 (fun _ => 0) 0 (by decide) rfl).2.1⟩

theorem unsupported_extension_404_witness :
    textRequest.path = teto.StaticPrefix ++ "readme.txt".toList ∧
    "readme.txt".toList ≠ [] ∧
    Base "readme.txt".toList = "readme.txt".toList ∧
    ToLower plainHost (Ext "readme.txt".toList) ∉ supportedExtensions ∧
    createStaticFileHandler plainHost sampleFS teto textRequest freshWriter =
      ⟨httpNotFound freshWriter, []⟩ ∧
    (createStaticFileHandler plainHost sampleFS teto textRequest freshWriter).resp.status =
      some 404 :=
  ⟨by decide, by decide, by decide, by decide,
    (unsupported_extension_404 plainHost sampleFS teto textRequest freshWriter
      "readme.txt".toList (by decide) (by decide) (by decide) (by decide)).1,
    (unsupported_extension_404 plainHost sampleFS teto textRequest freshWriter
      "readme.txt".toList (by decide) (by decide) (by decide) (by decide)).2 rfl⟩

theorem static_file_content_type_witness :
    upperRequest.path = mixed.StaticPrefix ++ "A.PNG".toList ∧
    IsComponent "A.PNG".toList ∧
    lowercased plainHost (Ext "A.PNG".toList) = ".png".toList ∧
    IsPlain upperRequest ∧
    headerGet (createStaticFileHandler plainHost mixedFS mixed upperRequest freshWriter).resp
      "Content-Type".toList = some "image/png".toList ∧
    (createStaticFileHandler plainHost mixedFS mixed upperRequest freshWriter).resp.status =
      some 200 ∧
    (createStaticFileHandler plainHost mixedFS mixed upperRequest freshWriter).resp.body =
      "PNG".toList ∧
    (createStaticFileHandler plainHost sampleFS teto missingRequest freshWriter).resp.status =
      some 404 := by
  obtain ⟨ct, hmap, _, hplain⟩ :=
    (static_file_content_type plainHost mixedFS mixed upperRequest freshWriter "A.PNG".toList
      (by decide) (by decide)).2.2.2.2 ⟨.ok ⟨1700000000⟩, .ok 3, "PNG".toList⟩ ⟨1700000000⟩
      (by decide) rfl rfl
  have hct : ct = "image/png".toList := by
    rcases hmap with ⟨h, _⟩ | ⟨h, _⟩ | ⟨_, h⟩ | ⟨h, _⟩
    · exact absurd h (by decide)
    · exact absurd h (by decide)
    · exact h
    · exact absurd h (by decide)
  subst hct
  have hp := hplain 3 (by decide) rfl
  exact ⟨by decide, by decide, by decide, by decide, hp.1, hp.2.1 rfl, hp.2.2 (by decide),
    ((static_file_content_type plainHost sampleFS teto missingRequest freshWriter
      "zzz.png".toList (by decide) (by decide)).2.1 rfl).2 rfl⟩

theorem listed_is_valid_target_witness :
    (∀ e ∈ ([⟨"a.png".toList, .regular⟩, ⟨"b.jpg".toList, .regular⟩,
      ⟨"readme.txt".toList, .regular⟩] : List DirEntry), '/' ∉ e.name) ∧
    "b.jpg".toList ∈ ["a.png".toList, "b.jpg".toList] ∧
    Base "b.jpg".toList = "b.jpg".toList ∧
    (createStaticFileHandler plainHost sampleFS teto
      (getRequest "/teto/static/b.jpg".toList) freshWriter).fsCalls =
      [.openFile (Join teto.Directory "b.jpg".toList)] ∧
    "readme.txt".toList ∉ ["a.png".toList, "b.jpg".toList] :=
  ⟨by decide, by decide,
    ((listed_is_valid_target plainHost sampleFS teto _ ["a.png".toList, "b.jpg".toList]
      rfl (by decide) rfl).1 "b.jpg".toList (by decide)
      (getRequest "/teto/static/b.jpg".toList) freshWriter rfl).2.2.1,
    ((listed_is_valid_target plainHost sampleFS teto _ ["a.png".toList, "b.jpg".toList]
      rfl (by decide) rfl).1 "b.jpg".toList (by decide)
      (getRequest "/teto/static/b.jpg".toList) freshWriter rfl).2.2.2.2.2,
    (listed_is_valid_target plainHost sampleFS teto _ ["a.png".toList, "b.jpg".toList]
      rfl (by decide) rfl).2.2 "readme.txt".toList (by decide)⟩

theorem static_index_spec_witness :
    indexRequest.path = teto.StaticPrefix ∧
    listAvailableImages plainHost sampleFS teto.Directory =
      .ok ["a.png".toList, "b.jpg".toList] ∧
    createStaticFileHandler plainHost sampleFS teto indexRequest freshWriter =
      ⟨write (headerSet freshWriter "Content-Type".toList "text/html; charset=utf-8".toList)
        (plainHost.execIndexTemplate
          (indexPageData teto ["a.png".toList, "b.jpg".toList])),
        [.readDir teto.Directory]⟩ ∧
    indexPageData teto ["a.png".toList, "b.jpg".toList] =
      [⟨"a.png".toList, "/teto/static/".toList⟩, ⟨"b.jpg".toList, "/teto/static/".toList⟩] ∧
    (createStaticFileHandler plainHost sampleFS teto indexRequest freshWriter).resp.status =
      some 200 :=
  ⟨by decide, rfl,
    (static_index_spec plainHost sampleFS teto indexRequest freshWriter
      ["a.png".toList, "b.jpg".toList] (by decide) rfl).1 (by decide),
    by decide,
    (static_index_spec plainHost sampleFS teto indexRequest freshWriter
      ["a.png".toList, "b.jpg".toList] (by decide) rfl).2.2.1 rfl⟩

theorem cors_spec_witness :
    ∃ w2 : ResponseWriter,
      headerGet w2 "Access-Control-Allow-Origin".toList = some "*".toList ∧
      headerGet w2 "Access-Control-Allow-Methods".toList = some "GET, POST, OPTIONS".toList ∧
      headerGet w2 "Access-Control-Allow-Headers".toList =
        some "Content-Type, Authorization".toList ∧
      corsMiddleware tickHandler optionsRequest freshWriter = ⟨writeHeader w2 200, []⟩ ∧
      (corsMiddleware tickHandler optionsRequest freshWriter).resp.body = [] ∧
      (corsMiddleware tickHandler randomRequest freshWriter).resp.body = ['x'] :=
  match cors_spec optionsRequest freshWriter with
  | ⟨w2, h1, _, _, _, h5, _⟩ =>
    ⟨w2, h1 ("Access-Control-Allow-Origin".toList, "*".toList) (by decide),
      h1 ("Access-Control-Allow-Methods".toList, "GET, POST, OPTIONS".toList) (by decide),
      h1 ("Access-Control-Allow-Headers".toList, "Content-Type, Authorization".toList)
        (by decide),
      (h5 rfl tickHandler).1, (h5 rfl tickHandler).2.2.1, by decide⟩

theorem root_handler_spec_witness :
    imageSourceValues.Perm imageSourceValues ∧
    freshWriter.status = none ∧
    (rootHandler imageSourceValues (getRequest "/xyz".toList) freshWriter).resp.status =
      some 404 ∧
    (rootHandler imageSourceValues (getRequest "/".toList) freshWriter).resp.status =
      some 200 ∧
    (rootHandler imageSourceValues (getRequest "/".toList) freshWriter).resp.body =
      freshWriter.body ++ rootPageHtml imageSourceValues :=
  ⟨List.Perm.refl _, rfl,
    ((root_handler_spec imageSourceValues (getRequest "/xyz".toList) freshWriter
      (List.Perm.refl _) rfl).1 (by decide)).2,
    ((root_handler_spec imageSourceValues (getRequest "/".toList) freshWriter
      (List.Perm.refl _) rfl).2.1 rfl).1,
    ((root_handler_spec imageSourceValues (getRequest "/".toList) freshWriter
      (List.Perm.refl _) rfl).2.1 rfl).2.1⟩

end RandomImage
